import Mathlib

/-!
# gonetperf: histogram, latency probe and traffic runs

A shallow embedding of `histogram.go`, `latency.go`, `latency_service.go`, `tcp_traffic.go`
and `udp_traffic.go`, followed by the properties proved about it.

* Go's `int`, `int64` and `uint64` are mathematical integers wrapped explicitly
  (`wrapInt64`, `wrapUint64`).
* Go's `float64` is `F64`: IEEE-754 binary64 with round-to-nearest-even, computed exactly on
  dyadic numbers, so that `math.Log(sample)/math.Log(base)` evaluates to the very double the
  program obtains.
* Code that can panic returns an `Option`; the clock, the network and the file system enter as
  explicit outcomes, and the package-level maps and counters are passed explicitly.
-/

namespace Perf

/-- Two's-complement wrap of a mathematical integer into Go's `int` / `int64`. -/
def wrapInt64 (x : Int) : Int := (x + 2 ^ 63) % 2 ^ 64 - 2 ^ 63

/-- Number of binary digits of `n`, by halving; `fuel` bounds the number of halvings. -/
def bitLenAux : Nat → Nat → Nat
  | 0, _ => 0
  | fuel + 1, n => if n = 0 then 0 else bitLenAux fuel (n / 2) + 1

/-- Number of binary digits of `n` (`0` for `0`). -/
def bitLen (n : Nat) : Nat := bitLenAux n n

/-- Go's `float64`: an IEEE-754 binary64 value.  A finite value is kept as the exact
dyadic number `m * 2 ^ e`; the two zeros are identified. -/
inductive F64 where
  | nan : F64
  | inf (neg : Bool) : F64
  | fin (m : Int) (e : Int) : F64
  deriving DecidableEq

namespace F64

/-- Rounding of the exact magnitude `a * 2 ^ e` to binary64, to nearest with ties to even:
53 significant bits, least exponent `-1074`, overflow to infinity. -/
def round (neg : Bool) (a : Nat) (e : Int) : F64 :=
  if a = 0 then fin 0 0
  else
    let top : Int := (bitLen a : Int) - 1 + e
    let q : Int := max (top - 52) (-1074)
    if q ≤ e then
      if top > 1023 then inf neg else fin (if neg then -(a : Int) else a) e
    else
      let sh : Nat := (q - e).toNat
      let keep : Nat := a / 2 ^ sh
      let rem : Nat := a % 2 ^ sh
      let half : Nat := 2 ^ (sh - 1)
      let up : Bool := decide (half < rem) || (decide (rem = half) && decide (keep % 2 = 1))
      let k : Nat := if up then keep + 1 else keep
      if 2 ^ 1024 ≤ (k : Int) * 2 ^ (q + 1074).toNat / 2 ^ 1074 then inf neg
      else fin (if neg then -(k : Int) else k) q

/-- The binary64 value nearest to the exact dyadic number `m * 2 ^ e`. -/
def ofExact (m : Int) (e : Int) : F64 := round (decide (m < 0)) m.natAbs e

/-- Decoding of a binary64 bit pattern. -/
def ofBits (b : Nat) : F64 :=
  let neg : Bool := decide (b / 2 ^ 63 % 2 = 1)
  let ex : Nat := b / 2 ^ 52 % 2048
  let fr : Nat := b % 2 ^ 52
  if ex = 2047 then (if fr = 0 then inf neg else nan)
  else if ex = 0 then fin (if neg then -(fr : Int) else fr) (-1074)
  else fin (if neg then -((2 ^ 52 + fr : Nat) : Int) else (2 ^ 52 + fr : Nat)) ((ex : Int) - 1075)

/-- Go's `float64(k)` for an integer `k`. -/
def ofInt (k : Int) : F64 := ofExact k 0

/-- Go's unary `-x`. -/
def neg : F64 → F64
  | nan => nan
  | inf s => inf (!s)
  | fin m e => fin (-m) e

/-- Go's `x + y`: the exact sum, rounded. -/
def add : F64 → F64 → F64
  | nan, _ => nan
  | _, nan => nan
  | inf a, inf b => if a = b then inf a else nan
  | inf a, fin _ _ => inf a
  | fin _ _, inf b => inf b
  | fin m1 e1, fin m2 e2 =>
    let e := min e1 e2
    ofExact (m1 * 2 ^ (e1 - e).toNat + m2 * 2 ^ (e2 - e).toNat) e

/-- Go's `x - y`. -/
def sub (x y : F64) : F64 := add x (neg y)

/-- Go's `x * y`: the exact product, rounded. -/
def mul : F64 → F64 → F64
  | nan, _ => nan
  | _, nan => nan
  | inf a, inf b => inf (a != b)
  | inf a, fin m _ => if m = 0 then nan else inf (a != decide (m < 0))
  | fin m _, inf b => if m = 0 then nan else inf (decide (m < 0) != b)
  | fin m1 e1, fin m2 e2 => ofExact (m1 * m2) (e1 + e2)

/-- Go's `x / y`: the exact quotient, rounded.  The quotient of the magnitudes is taken with
at least 64 significant bits and a sticky last bit, which decides the rounding as the exact
quotient would; a zero divisor counts as `+0`. -/
def div : F64 → F64 → F64
  | nan, _ => nan
  | _, nan => nan
  | inf _, inf _ => nan
  | inf a, fin m _ => inf (a != decide (m < 0))
  | fin _ _, inf _ => fin 0 0
  | fin m1 e1, fin m2 e2 =>
    if m2 = 0 then (if m1 = 0 then nan else inf (decide (m1 < 0)))
    else
      let k : Nat := 64 + bitLen m2.natAbs
      let n : Nat := m1.natAbs * 2 ^ k
      let quo : Nat := n / m2.natAbs
      let sticky : Nat := if n % m2.natAbs = 0 then 0 else 1
      round (decide (m1 < 0) != decide (m2 < 0)) (2 * quo + sticky) (e1 - e2 - k - 1)

/-- Go's `x < y` on `float64`. -/
def lt : F64 → F64 → Bool
  | nan, _ => false
  | _, nan => false
  | inf a, inf b => a && !b
  | inf a, fin _ _ => a
  | fin _ _, inf b => !b
  | fin m1 e1, fin m2 e2 =>
    let e := min e1 e2
    decide (m1 * 2 ^ (e1 - e).toNat < m2 * 2 ^ (e2 - e).toNat)

/-- Go's `int(x)` for a `float64` on amd64 (`CVTTSD2SQ`): truncation toward zero; NaN,
the infinities and values outside `int64` give the "integer indefinite" `-2^63`. -/
def toInt : F64 → Int
  | nan => -(2 ^ 63)
  | inf _ => -(2 ^ 63)
  | fin m e =>
    let t : Int := if 0 ≤ e then m * 2 ^ e.toNat else Int.tdiv m (2 ^ (-e).toNat)
    if t < -(2 ^ 63) ∨ 2 ^ 63 ≤ t then -(2 ^ 63) else t

/-- Go's `math.Frexp` on a finite non-zero value: `x = frac * 2 ^ exp`, `1/2 ≤ |frac| < 1`. -/
def Frexp : F64 → F64 × Int
  | fin m e => if m = 0 then (fin 0 0, 0) else (fin m (-(bitLen m.natAbs : Int)), bitLen m.natAbs + e)
  | x => (x, 0)

/-- The constants of `math.Log`, by their bit patterns as listed in `math/log.go`. -/
def Ln2Hi : F64 := ofBits 0x3fe62e42fee00000
def Ln2Lo : F64 := ofBits 0x3dea39ef35793c76
def L1 : F64 := ofBits 0x3FE5555555555593
def L2 : F64 := ofBits 0x3FD999999997FA04
def L3 : F64 := ofBits 0x3FD2492494229359
def L4 : F64 := ofBits 0x3FCC71C51D8E78AF
def L5 : F64 := ofBits 0x3FC7466496CB03DE
def L6 : F64 := ofBits 0x3FC39A09D078C69F
def L7 : F64 := ofBits 0x3FC2F112DF3E5244
/-- The constant `math.Sqrt2/2` as a `float64`. -/
def Sqrt2Half : F64 := ofBits 0x3FE6A09E667F3BCD

/-- Go's `math.Log`: the algorithm of `math/log.go` (after FreeBSD's `e_log.c`), which the
amd64 assembly follows operation by operation. -/
def Log (x : F64) : F64 :=
  match x with
  | nan => nan
  | inf false => inf false
  | inf true => nan
  | fin m _ =>
    if m < 0 then nan
    else if m = 0 then inf true
    else
      let fk := Frexp x
      let f1 := if lt fk.1 Sqrt2Half then mul fk.1 (ofInt 2) else fk.1
      let ki := if lt fk.1 Sqrt2Half then fk.2 - 1 else fk.2
      let f := sub f1 (ofInt 1)
      let k := ofInt ki
      let s := div f (add (ofInt 2) f)
      let s2 := mul s s
      let s4 := mul s2 s2
      let t1 := mul s2 (add L1 (mul s4 (add L3 (mul s4 (add L5 (mul s4 L7))))))
      let t2 := mul s4 (add L2 (mul s4 (add L4 (mul s4 L6))))
      let R := add t1 t2
      let hfsq := mul (mul (fin 1 (-1)) f) f
      sub (mul k Ln2Hi) (sub (sub hfsq (add (mul s (add hfsq R)) (mul k Ln2Lo))) f)

end F64

/-! ## histogram.go -/

/-- The `histogram` struct: the logarithmic base and the bucket counters (`[]int`). -/
structure histogram where
  base : F64
  buckets : List Int
  deriving DecidableEq

/-- `NewHistogram(size, base)`: `size` zeroed buckets (`make` rejects a negative size, so
`size` ranges over the naturals). -/
def NewHistogram (size : Nat) (base : F64) : histogram :=
  ⟨base, List.replicate size 0⟩

/-- The index computed by `AddSample` before the update:
`int(math.Log(sample)/math.Log(h.base)) + 1` in `int` arithmetic, then the two clamps. -/
def histogram.ibucket (h : histogram) (sample : F64) : Int :=
  let ibucket := wrapInt64 (F64.toInt (F64.div (F64.Log sample) (F64.Log h.base)) + 1)
  if ibucket < 0 then 0
  else if ibucket ≥ h.buckets.length then (h.buckets.length : Int) - 1
  else ibucket

/-- `AddSample`: `h.buckets[ibucket] += 1`; `none` is Go's index-out-of-range panic. -/
def histogram.AddSample (h : histogram) (sample : F64) : Option histogram :=
  let ibucket := h.ibucket sample
  if 0 ≤ ibucket ∧ ibucket < h.buckets.length then
    some { h with buckets :=
      h.buckets.set ibucket.toNat (wrapInt64 (h.buckets.getD ibucket.toNat 0 + 1)) }
  else none

/-- A sequence of `AddSample` calls, in order; `none` as soon as one of them panics. -/
def histogram.addSamples (h : histogram) : List F64 → Option histogram
  | [] => some h
  | x :: xs => (h.AddSample x).bind fun h1 => h1.addSamples xs


/-! ### `Print` -/

namespace F64

/-- Go's `x == y` on `float64`. -/
def eq : F64 → F64 → Bool
  | fin m1 e1, fin m2 e2 =>
    decide (m1 * 2 ^ (e1 - min e1 e2).toNat = m2 * 2 ^ (e2 - min e1 e2).toNat)
  | inf a, inf b => a == b
  | _, _ => false

/-- The loop of `math.Pow` over the bits of the integer exponent `n`: `a1 * 2 ^ ae` is the
product so far, `x1 * 2 ^ xe` the current square; `fuel` bounds the number of bits. -/
def powLoop : Nat → Nat → F64 → Int → F64 → Int → F64 × Int
  | 0, _, a1, ae, _, _ => (a1, ae)
  | fuel + 1, n, a1, ae, x1, xe =>
    if n = 0 then (a1, ae)
    else if xe < -4096 ∨ 4096 < xe then (a1, ae + xe)
    else
      let a2 := if n % 2 = 1 then mul a1 x1 else a1
      let ae2 := if n % 2 = 1 then ae + xe else ae
      let x2 := mul x1 x1
      let xe2 := 2 * xe
      if lt x2 (fin 1 (-1)) then powLoop fuel (n / 2) a2 ae2 (add x2 x2) (xe2 - 1)
      else powLoop fuel (n / 2) a2 ae2 x2 xe2

/-- Go's `math.Ldexp(frac, exp)`: `frac * 2 ^ exp`, rounded. -/
def Ldexp : F64 → Int → F64
  | fin m e, exp => ofExact m (e + exp)
  | x, _ => x

/-- Go's `math.Pow(x, float64(i))` for a slice index `i`: the special cases of `math/pow.go`
in their order, then the multiplication loop over the bits of the exponent and `Ldexp`.  An
index is below `2^63`, so `float64(i)` is finite and the last case is never reached. -/
def PowIndex (x : F64) (i : Nat) : F64 :=
  match ofInt i, x with
  | fin yi ye, fin m e =>
    if yi = 0 ∨ eq x (fin 1 0) then fin 1 0
    else if eq (fin yi ye) (fin 1 0) then x
    else if m = 0 then fin 0 0
    else
      let n : Nat := (yi * 2 ^ ye.toNat).toNat
      if n ≥ 2 ^ 63 then
        (if eq x (fin (-1) 0) then fin 1 0
        else if lt (fin m.natAbs e) (fin 1 0) then fin 0 0
        else inf false)
      else
        let r := powLoop 64 n (fin 1 0) 0 (Frexp x).1 (Frexp x).2
        Ldexp r.1 r.2
  | fin yi _, nan => if yi = 0 then fin 1 0 else nan
  | fin yi ye, inf s =>
    if yi = 0 then fin 1 0
    else if eq (fin yi ye) (fin 1 0) then inf s
    else if s then inf (decide ((yi * 2 ^ ye.toNat) % 2 = 1 ∧ yi * 2 ^ ye.toNat < 2 ^ 53))
    else inf false
  | _, _ => nan

end F64

/-- The text of `%d` for a Go `int`. -/
def fmtInt (n : Int) : List Char :=
  if n < 0 then '-' :: Nat.toDigits 10 n.natAbs else Nat.toDigits 10 n.natAbs

/-- The text of `%-10s`: the string, then spaces up to the width 10. -/
def padRight10 (s : List Char) : List Char := s ++ List.replicate (10 - s.length) ' '

/-- The iterations `i, i+1, ...` of the loop of `Print`, one for each bucket count left in
`counts`: the texts of the calls of `fmt.Printf`, with `low` carried from one iteration to the
next. -/
def histogram.printFrom (h : histogram) : Nat → F64 → List Int → List (List Char)
  | _, _, [] => []
  | i, low, count :: counts =>
    let high := F64.PowIndex h.base i
    let slice : List Char :=
      if (i : Int) = (h.buckets.length : Int) - 1 then
        "[".data ++ fmtInt (F64.toInt low) ++ "--[".data
      else
        "[".data ++ fmtInt (F64.toInt low) ++ "--".data ++ fmtInt (F64.toInt high) ++ "[".data
    (padRight10 slice ++ " : ".data ++ fmtInt count ++ "\n".data) ::
      h.printFrom (i + 1) high counts

/-- `Print`: the lines written to the standard output, one call of `fmt.Printf` each. -/
def histogram.Print (h : histogram) : List (List Char) :=
  h.printFrom 0 (F64.fin 0 0) h.buckets

/-! ## latency.go -/

/-- Go's conversion of an integer to `uint64`. -/
def wrapUint64 (x : Int) : Nat := (x % 2 ^ 64).toNat

/-- The `Sample` struct; both fields are `uint64`. -/
structure Sample where
  timestamp : Nat
  latencyNs : Nat
  deriving DecidableEq

/-- A Go slice `[]Sample`: its elements (`len` is their number) and its capacity. -/
structure SampleSlice where
  elems : List Sample
  cap : Nat
  deriving DecidableEq

/-- Capacity chosen by Go's `append` when the backing array is full: twice the old capacity,
or the needed length when that is larger (the runtime's rule for small slices; an empty slice of
capacity 0 grows to capacity 1). -/
def growCap (oldCap newLen : Nat) : Nat :=
  if oldCap + oldCap < newLen then newLen else oldCap + oldCap

/-- Go's `append(s, x)`: in place while `len < cap`, into a larger array otherwise. -/
def SampleSlice.append (s : SampleSlice) (x : Sample) : SampleSlice :=
  if s.elems.length < s.cap then ⟨s.elems ++ [x], s.cap⟩
  else ⟨s.elems ++ [x], growCap s.cap (s.elems.length + 1)⟩

/-- The fields of `latencyProbe` that the measurement loop reads and writes.  `latency` is a
`time.Duration` (nanoseconds, `int64`).  `logFile` is `none` for the nil `*os.File` left when
the series file could not be opened, and otherwise holds the text written to the file through
this handle so far.  The ticker and the HTTP client are the environment. -/
structure latencyProbe where
  id : String
  intervalMs : Int
  series : SampleSlice
  target : String
  latency : Int
  counter : Int
  logFilePath : String
  logFile : Option (List Char)
  deriving DecidableEq

/-- The duration `time.Duration(intervalMs) * time.Millisecond`, an `int64` product. -/
def intervalDuration (intervalMs : Int) : Int := wrapInt64 (intervalMs * 1000000)

/-- `NewLatencyProbe(id, target, intervalMs)`.  `bufferSize` is the `int64` quotient of one
minute by the interval; `none` is the panic of a division by zero or of `make` with a negative
capacity.  `logFilePath` is the joined path of the series file and `opened` tells whether
`os.OpenFile` succeeded. -/
def NewLatencyProbe (id target : String) (intervalMs : Int) (logFilePath : String)
    (opened : Bool) : Option latencyProbe :=
  if intervalDuration intervalMs = 0 then none
  else
    let bufferSize : Int := wrapInt64 (Int.tdiv (1 * 60000000000) (intervalDuration intervalMs))
    if bufferSize < 0 then none
    else some
      { id := id
        intervalMs := intervalMs
        series := ⟨[], bufferSize.toNat⟩
        target := target
        latency := 0
        counter := 0
        logFilePath := if opened then logFilePath else ""
        logFile := if opened then some [] else none }

/-- What one HTTP GET of `getLatency` observed: the start time (`UnixNano`), the elapsed
`time.Duration` and whether `client.Get` returned an error. -/
structure GetOutcome where
  startNs : Int
  latency : Int
  err : Bool
  deriving DecidableEq

/-- `getLatency`: on an error faster than the interval the probe is unchanged and the error is
returned (`none`); otherwise the sample is appended and the latency returned. -/
def latencyProbe.getLatency (p : latencyProbe) (o : GetOutcome) : latencyProbe × Option Int :=
  if o.err ∧ o.latency < intervalDuration p.intervalMs then (p, none)
  else
    ({ p with series := p.series.append ⟨wrapUint64 o.startNs, wrapUint64 o.latency⟩ },
      some o.latency)

/-- The line `fmt.Sprintf("%d\t%d\n", sample.timestamp, sample.latencyNs)`. -/
def Sample.line (s : Sample) : List Char :=
  Nat.toDigits 10 s.timestamp ++ '\t' :: Nat.toDigits 10 s.latencyNs ++ ['\n']

/-- `flush`: the lines of the buffered samples, joined, are written to the log file
(`WriteString` on a nil file writes nothing and its error is dropped) and the slice is cut to
`p.series[0:0]`. -/
def latencyProbe.flush (p : latencyProbe) : latencyProbe :=
  let samples := p.series.elems.map Sample.line
  { p with
    logFile := p.logFile.map fun text => text ++ samples.flatten
    series := ⟨[], p.series.cap⟩ }

/-- One iteration of the loop of `run`, after the ticker fired. -/
def latencyProbe.tick (p : latencyProbe) (o : GetOutcome) : latencyProbe :=
  let p1 := { p with counter := wrapInt64 (p.counter + 1) }
  match p1.getLatency o with
  | (p2, none) => p2
  | (p2, some latency) =>
    let p3 := { p2 with latency := latency }
    if p3.series.elems.length ≥ p3.series.cap then p3.flush else p3

/-- A sequence of ticks, in order. -/
def latencyProbe.ticks (p : latencyProbe) : List GetOutcome → latencyProbe
  | [] => p
  | o :: os => (p.tick o).ticks os

/-- An event in the life of a probe's buffer: a tick of the loop, or a call of `flush` (as
`LatencyStopHandler` makes). -/
inductive ProbeEvent where
  | tick (o : GetOutcome) : ProbeEvent
  | flush : ProbeEvent
  deriving DecidableEq

/-- The probe after a sequence of events. -/
def latencyProbe.events (p : latencyProbe) : List ProbeEvent → latencyProbe
  | [] => p
  | ProbeEvent.tick o :: es => (p.tick o).events es
  | ProbeEvent.flush :: es => p.flush.events es

/-- The samples a sequence of events appends to the buffer of a probe with the given interval,
in order. -/
def appended (intervalMs : Int) : List ProbeEvent → List Sample
  | [] => []
  | ProbeEvent.tick o :: es =>
    if o.err ∧ o.latency < intervalDuration intervalMs then appended intervalMs es
    else ⟨wrapUint64 o.startNs, wrapUint64 o.latency⟩ :: appended intervalMs es
  | ProbeEvent.flush :: es => appended intervalMs es

/-! ### Reading a series file back -/

/-- Reads decimal digits off the front of the text, accumulating their value. -/
def readDigits (acc : Nat) : List Char → Nat × List Char
  | [] => (acc, [])
  | c :: cs => if c.isDigit then readDigits (10 * acc + (c.toNat - 48)) cs else (acc, c :: cs)

/-- A decimal unsigned integer at the front of the text: at least one digit. -/
def readNat : List Char → Option (Nat × List Char)
  | [] => none
  | c :: cs => if c.isDigit then some (readDigits 0 (c :: cs)) else none

/-- One record: two decimal unsigned integers separated by a tab and ended by a newline. -/
def readRecord (text : List Char) : Option (Sample × List Char) :=
  match readNat text with
  | some (t, '\t' :: rest) =>
    match readNat rest with
    | some (l, '\n' :: rest1) => some (⟨t, l⟩, rest1)
    | _ => none
  | _ => none

/-- Records until the text is exhausted; `fuel` bounds their number. -/
def readSeriesAux : Nat → List Char → Option (List Sample)
  | _, [] => some []
  | 0, _ :: _ => none
  | fuel + 1, c :: cs =>
    match readRecord (c :: cs) with
    | some (s, rest) => (readSeriesAux fuel rest).map fun ss => s :: ss
    | none => none

/-- Parses a series file line by line. -/
def readSeries (text : List Char) : Option (List Sample) := readSeriesAux text.length text

/-! ## latency_service.go -/

/-- A Go `map[string]*T`, as the lookup it answers. -/
abbrev Registry (α : Type) : Type := String → Option α

/-- The empty map made by `make`. -/
def Registry.empty {α : Type} : Registry α := fun _ => none

/-- The assignment `m[k] = v`. -/
def Registry.set {α : Type} (m : Registry α) (k : String) (v : α) : Registry α :=
  fun k1 => if k1 = k then some v else m k1

/-- The `LatencyNewRequest` struct. -/
structure LatencyNewRequest where
  Id : String
  Target : String
  IntervalMs : Int
  deriving DecidableEq

/-- What `LatencyNewHandler` leaves behind: the map `probes`, the text written to the
response, and the probe whose ticker was started, if any. -/
structure LatencyNewResult where
  probes : Registry latencyProbe
  body : String
  started : Option latencyProbe

/-- `LatencyNewHandler` on a parsed request: `defaultIntervalMs` is `*flagDefaultIntervalMs`,
`logFilePath` and `opened` are what `NewLatencyProbe` meets.  A panic (in `NewLatencyProbe`, or
in `time.NewTicker` for a non-positive interval, after the probe is stored) ends the handler. -/
def LatencyNewHandler (probes : Registry latencyProbe) (defaultIntervalMs : Int)
    (request : LatencyNewRequest) (logFilePath : String) (opened : Bool) : LatencyNewResult :=
  let intervalMs := if request.IntervalMs = 0 then defaultIntervalMs else request.IntervalMs
  if (probes request.Id).isSome then
    ⟨probes, "Latency probe already exists for ID \x27" ++ request.Id ++ "\x27", none⟩
  else
    match NewLatencyProbe request.Id request.Target intervalMs logFilePath opened with
    | none => ⟨probes, "", none⟩
    | some probe =>
      if intervalDuration intervalMs ≤ 0 then ⟨probes.set request.Id probe, "", none⟩
      else ⟨probes.set request.Id probe, "", some probe⟩

/-! ## tcp_traffic.go -/

/-- The `TcpReq` struct; the numeric fields are `uint64`. -/
structure TcpReq where
  Target : String
  MaxBytes : Nat
  WriteSize : Nat
  WriteIntervalMs : Nat
  StartTime : Nat
  EndTime : Nat
  deriving DecidableEq

/-- The `TcpRun` struct; `BytesSent` is `uint64`, the traffic times are `int64` nanoseconds. -/
structure TcpRun where
  Id : String
  BytesSent : Nat
  Req : TcpReq
  StopReq : Bool
  TrafficStartTime : Int
  TrafficEndTime : Int
  deriving DecidableEq

/-- What one iteration of a transmit loop meets: the clock read by the end-time test, the clock
read by `time.Since(lastSendTime)` before the pacing sleep, the clock stored in `lastSendTime`
right before the write (all in Unix nanoseconds), and the answer of `conn.Write` to a buffer of
a given length: the byte count `nbytes` and whether `err != nil`. -/
structure IterEnv where
  now : Int
  paceTime : Int
  sendTime : Int
  write : Nat → Nat × Bool

/-- Seconds from the year 1, the origin of `time.Time`, to the Unix epoch. -/
def unixToInternal : Int := 62135596800

/-- The test `time.Now().After(endTime)` with `endTime = time.Unix(int64(EndTime), 0)`, for the
clock reading `now` in Unix nanoseconds: the instants are compared by their `int64` seconds
since the year 1 and then by their nanoseconds; `endTime` has none. -/
def afterEndTime (now : Int) (EndTime : Nat) : Prop :=
  now / 1000000000 + unixToInternal > wrapInt64 (wrapInt64 EndTime + unixToInternal) ∨
    (now / 1000000000 + unixToInternal = wrapInt64 (wrapInt64 EndTime + unixToInternal) ∧
      now % 1000000000 > 0)

instance (now : Int) (EndTime : Nat) : Decidable (afterEndTime now EndTime) := by
  unfold afterEndTime
  infer_instance

/-- Why a transmit loop was left. -/
inductive LoopExit where
  | stopRequested : LoopExit
  | maxBytesReached : LoopExit
  | timeOver : LoopExit
  | sendError : LoopExit
  deriving DecidableEq

/-- What happens to a run while its transmit loop is running: `Stop()` is called from the
control plane, or the loop goes through one iteration. -/
inductive RunEvent where
  | stop : RunEvent
  | iterate (e : IterEnv) : RunEvent

/-- `TcpRun.Stop`. -/
def TcpRun.Stop (run : TcpRun) : TcpRun := { run with StopReq := true }

/-- One iteration of the `for` loop of `TcpRun.Process`: the three tests, then one write of
`min(bufferSize, req.MaxBytes-run.BytesSent)` bytes (of `bufferSize` bytes without a cap), whose
count is added to `BytesSent` unless the write failed.  An exit reason stands for `break`. -/
def TcpRun.iteration (run : TcpRun) (e : IterEnv) : Except LoopExit TcpRun :=
  if run.StopReq then Except.error LoopExit.stopRequested
  else if run.Req.MaxBytes > 0 ∧ run.BytesSent ≥ run.Req.MaxBytes then
    Except.error LoopExit.maxBytesReached
  else if run.Req.EndTime > 0 ∧ afterEndTime e.now run.Req.EndTime then
    Except.error LoopExit.timeOver
  else
    let bufferSize := run.Req.WriteSize
    let len :=
      if run.Req.MaxBytes > 0 then
        min bufferSize (wrapUint64 ((run.Req.MaxBytes : Int) - run.BytesSent))
      else bufferSize
    match e.write len with
    | (_, true) => Except.error LoopExit.sendError
    | (nbytes, false) => Except.ok { run with BytesSent := (run.BytesSent + nbytes) % 2 ^ 64 }

/-- The transmit loop of `TcpRun.Process` along a sequence of events: the run when the events
are used up or the loop is left, and the exit reason (`none` while the loop is still going). -/
def TcpRun.transmit (run : TcpRun) : List RunEvent → TcpRun × Option LoopExit
  | [] => (run, none)
  | RunEvent.stop :: es => run.Stop.transmit es
  | RunEvent.iterate e :: es =>
    match run.iteration e with
    | Except.error reason => (run, some reason)
    | Except.ok run1 => run1.transmit es

/-- An iteration whose write sends the whole buffer. -/
def fullWrite (now : Int) : IterEnv := ⟨now, now, now, fun len => (len, false)⟩

/-- An iteration whose write sends half of the buffer, rounded up. -/
def halfWrite (now : Int) : IterEnv := ⟨now, now, now, fun len => ((len + 1) / 2, false)⟩

/-! ## udp_traffic.go -/

/-- The `UdpReq` struct; the numeric fields are `uint64`. -/
structure UdpReq where
  Target : String
  MaxBytes : Nat
  WriteSize : Nat
  WriteIntervalMs : Nat
  StartTime : Nat
  EndTime : Nat
  deriving DecidableEq

/-- The `UdpRun` struct; `BytesSent` is `uint64`, the traffic times are `int64` nanoseconds. -/
structure UdpRun where
  Id : String
  BytesSent : Nat
  Req : UdpReq
  StopReq : Bool
  TrafficStartTime : Int
  TrafficEndTime : Int
  deriving DecidableEq

/-- `UdpRun.Stop`. -/
def UdpRun.Stop (run : UdpRun) : UdpRun := { run with StopReq := true }

/-- One iteration of the `for` loop of `UdpRun.Process`: the three tests, then one write of
`min(req.WriteSize, req.MaxBytes-run.BytesSent)` bytes (of `req.WriteSize` bytes without a cap), whose
count is added to `BytesSent` unless the write failed.  An exit reason stands for `break`. -/
def UdpRun.iteration (run : UdpRun) (e : IterEnv) : Except LoopExit UdpRun :=
  if run.StopReq then Except.error LoopExit.stopRequested
  else if run.Req.MaxBytes > 0 ∧ run.BytesSent ≥ run.Req.MaxBytes then
    Except.error LoopExit.maxBytesReached
  else if run.Req.EndTime > 0 ∧ afterEndTime e.now run.Req.EndTime then
    Except.error LoopExit.timeOver
  else
    let len :=
      if run.Req.MaxBytes > 0 then
        min run.Req.WriteSize (wrapUint64 ((run.Req.MaxBytes : Int) - run.BytesSent))
      else run.Req.WriteSize
    match e.write len with
    | (_, true) => Except.error LoopExit.sendError
    | (nbytes, false) => Except.ok { run with BytesSent := (run.BytesSent + nbytes) % 2 ^ 64 }

/-- The transmit loop of `UdpRun.Process` along a sequence of events: the run when the events
are used up or the loop is left, and the exit reason (`none` while the loop is still going). -/
def UdpRun.transmit (run : UdpRun) : List RunEvent → UdpRun × Option LoopExit
  | [] => (run, none)
  | RunEvent.stop :: es => run.Stop.transmit es
  | RunEvent.iterate e :: es =>
    match run.iteration e with
    | Except.error reason => (run, some reason)
    | Except.ok run1 => run1.transmit es


/-! ## Traffic runs: pacing, the write log, `Process` and the registries -/

/-- A `time.Duration` that saturates, as `Time.Sub` does. -/
def saturateInt64 (x : Int) : Int :=
  if x < -(2 ^ 63) then -(2 ^ 63) else if x ≥ 2 ^ 63 then 2 ^ 63 - 1 else x

/-- The duration handed to `time.Sleep` by the pacing step:
`time.Duration(req.WriteIntervalMs)*time.Millisecond - time.Since(lastSendTime)` less one
millisecond, in `int64` arithmetic.  `lastSendTime = none` is the zero `time.Time` of the first
iteration, the first instant of the year 1; `paceTime` is the clock read by `time.Since`. -/
def pacingSleep (WriteIntervalMs : Nat) (lastSendTime : Option Int) (paceTime : Int) : Int :=
  let since : Int :=
    match lastSendTime with
    | none => saturateInt64 (paceTime + unixToInternal * 1000000000)
    | some t => saturateInt64 (paceTime - t)
  let sleepTime := wrapInt64 (wrapInt64 (wrapInt64 WriteIntervalMs * 1000000) - since)
  wrapInt64 (sleepTime - 1 * 1000000)

/-- One call of `conn.Write` as the loop issues it: the clock of the end-time test of its
iteration, the duration handed to `time.Sleep` before it (0 when `time.Sleep` is not called),
the clock stored in `lastSendTime` right before the write, and the length of the buffer. -/
structure SendRecord where
  checkTime : Int
  sleep : Int
  sendTime : Int
  len : Nat
  deriving DecidableEq

/-- The text `fmt.Sprintf("%s-%d", serverId, runId)`. -/
def runIdText (serverId : String) (runId : Nat) : String := serverId ++ "-" ++ Nat.repr runId

/-- The package-level variables `tcpRuns` and `tcpRunCount` (a `uint64`). -/
structure TcpGlobals where
  tcpRuns : Registry TcpRun
  tcpRunCount : Nat

/-- The initial values of `tcpRuns` and `tcpRunCount`. -/
def TcpGlobals.init : TcpGlobals := ⟨Registry.empty, 0⟩

/-- `NewTcpRun(req)`: the run it returns and the package-level variables after the call.  The
request is the one stored in the run, after the default write size is filled in;
`atomic.AddUint64(&tcpRunCount, 1) - 1` is `uint64` arithmetic. -/
def NewTcpRun (serverId : String) (g : TcpGlobals) (req : TcpReq) : TcpRun × TcpGlobals :=
  let req1 : TcpReq := if req.WriteSize = 0 then { req with WriteSize := 1024 } else req
  let count1 : Nat := (g.tcpRunCount + 1) % 2 ^ 64
  let runId : Nat := wrapUint64 ((count1 : Int) - 1)
  let run : TcpRun :=
    { Id := runIdText serverId runId
      BytesSent := 0
      Req := req1
      StopReq := false
      TrafficStartTime := 0
      TrafficEndTime := 0 }
  (run, ⟨g.tcpRuns.set run.Id run, count1⟩)

/-- A sequence of `NewTcpRun` calls, in order: the package-level variables after them. -/
def tcpCreates (serverId : String) (g : TcpGlobals) : List TcpReq → TcpGlobals
  | [] => g
  | req :: reqs => tcpCreates serverId (NewTcpRun serverId g req).2 reqs

/-- One iteration of the `for` loop of `TcpRun.Process`, with the write it issues: the three
tests, the pacing sleep, `lastSendTime = time.Now()`, and one `conn.Write`.  An exit reason
stands for `break`. -/
def TcpRun.iterate (run : TcpRun) (lastSendTime : Option Int) (e : IterEnv) :
    List SendRecord × Except LoopExit TcpRun :=
  if run.StopReq then ([], Except.error LoopExit.stopRequested)
  else if run.Req.MaxBytes > 0 ∧ run.BytesSent ≥ run.Req.MaxBytes then
    ([], Except.error LoopExit.maxBytesReached)
  else if run.Req.EndTime > 0 ∧ afterEndTime e.now run.Req.EndTime then
    ([], Except.error LoopExit.timeOver)
  else
    let sleep : Int :=
      if run.Req.WriteIntervalMs > 0 then
        pacingSleep run.Req.WriteIntervalMs lastSendTime e.paceTime
      else 0
    let bufferSize := run.Req.WriteSize
    let len :=
      if run.Req.MaxBytes > 0 then
        min bufferSize (wrapUint64 ((run.Req.MaxBytes : Int) - run.BytesSent))
      else bufferSize
    let sent : SendRecord := ⟨e.now, sleep, e.sendTime, len⟩
    match e.write len with
    | (_, true) => ([sent], Except.error LoopExit.sendError)
    | (nbytes, false) =>
      ([sent], Except.ok { run with BytesSent := (run.BytesSent + nbytes) % 2 ^ 64 })

/-- The transmit loop of `TcpRun.Process` along a sequence of events, with the writes it
issues: the writes in order, the run when the events are used up or the loop is left, and the
exit reason (`none` while the loop is still going). -/
def TcpRun.loop (run : TcpRun) (lastSendTime : Option Int) :
    List RunEvent → List SendRecord × TcpRun × Option LoopExit
  | [] => ([], run, none)
  | RunEvent.stop :: es => run.Stop.loop lastSendTime es
  | RunEvent.iterate e :: es =>
    match run.iterate lastSendTime e with
    | (sends, Except.error reason) => (sends, run, some reason)
    | (sends, Except.ok run1) =>
      (sends ++ (run1.loop (some e.sendTime) es).1, (run1.loop (some e.sendTime) es).2)

/-- What `Process` meets: whether the dial succeeded, the clock stored in `TrafficStartTime`,
the events of the transmit loop, and the clock stored in `TrafficEndTime` (Unix nanoseconds). -/
structure ProcessEnv where
  dialed : Bool
  startClock : Int
  events : List RunEvent
  endClock : Int

/-- The outcome of `TcpRun.Process`: the run, why the loop was left (`none` when the dial
failed or the loop is still going), and the writes issued. -/
structure TcpProcessResult where
  run : TcpRun
  exit : Option LoopExit
  sends : List SendRecord

/-- `TcpRun.Process`: dial, wait for the start time, record `TrafficStartTime`, run the
transmit loop, record `TrafficEndTime` (`UnixNano` is an `int64`). -/
def TcpRun.Process (run : TcpRun) (env : ProcessEnv) : TcpProcessResult :=
  if env.dialed then
    match TcpRun.loop { run with TrafficStartTime := wrapInt64 env.startClock } none
        env.events with
    | (sends, run1, none) => ⟨run1, none, sends⟩
    | (sends, run1, some reason) =>
      ⟨{ run1 with TrafficEndTime := wrapInt64 env.endClock }, some reason, sends⟩
  else ⟨run, none, []⟩

/-- The clock readings of a `Process` never go back: from the reading `t` on, through the three
readings of every iteration in order, up to the last reading `tEnd`. -/
def clockNonDecreasing (t : Int) : List RunEvent → Int → Prop
  | [], tEnd => t ≤ tEnd
  | RunEvent.stop :: es, tEnd => clockNonDecreasing t es tEnd
  | RunEvent.iterate e :: es, tEnd =>
    t ≤ e.now ∧ e.now ≤ e.paceTime ∧ e.paceTime ≤ e.sendTime ∧
      clockNonDecreasing e.sendTime es tEnd

/-- An iteration whose write sends the whole buffer, with the end-time test and the pacing step
at the clock `now` and the write at the clock `sendTime`. -/
def fullWriteAt (now sendTime : Int) : IterEnv := ⟨now, now, sendTime, fun len => (len, false)⟩

/-! ## UDP runs: the write log, `Process` and the registry -/

/-- The package-level variables `udpRuns` and `udpRunCount` (a `uint64`). -/
structure UdpGlobals where
  udpRuns : Registry UdpRun
  udpRunCount : Nat

/-- The initial values of `udpRuns` and `udpRunCount`. -/
def UdpGlobals.init : UdpGlobals := ⟨Registry.empty, 0⟩

/-- `NewUdpRun(req)`: the run it returns and the package-level variables after the call.  The
request is the one stored in the run, after the default write size is filled in;
`atomic.AddUint64(&udpRunCount, 1) - 1` is `uint64` arithmetic. -/
def NewUdpRun (serverId : String) (g : UdpGlobals) (req : UdpReq) : UdpRun × UdpGlobals :=
  let req1 : UdpReq := if req.WriteSize = 0 then { req with WriteSize := 1024 } else req
  let count1 : Nat := (g.udpRunCount + 1) % 2 ^ 64
  let runId : Nat := wrapUint64 ((count1 : Int) - 1)
  let run : UdpRun :=
    { Id := runIdText serverId runId
      BytesSent := 0
      Req := req1
      StopReq := false
      TrafficStartTime := 0
      TrafficEndTime := 0 }
  (run, ⟨g.udpRuns.set run.Id run, count1⟩)

/-- A sequence of `NewUdpRun` calls, in order: the package-level variables after them. -/
def udpCreates (serverId : String) (g : UdpGlobals) : List UdpReq → UdpGlobals
  | [] => g
  | req :: reqs => udpCreates serverId (NewUdpRun serverId g req).2 reqs

/-- One iteration of the `for` loop of `UdpRun.Process`, with the write it issues: the three
tests, the pacing sleep, `lastSendTime = time.Now()`, and one `conn.Write`.  An exit reason
stands for `break`. -/
def UdpRun.iterate (run : UdpRun) (lastSendTime : Option Int) (e : IterEnv) :
    List SendRecord × Except LoopExit UdpRun :=
  if run.StopReq then ([], Except.error LoopExit.stopRequested)
  else if run.Req.MaxBytes > 0 ∧ run.BytesSent ≥ run.Req.MaxBytes then
    ([], Except.error LoopExit.maxBytesReached)
  else if run.Req.EndTime > 0 ∧ afterEndTime e.now run.Req.EndTime then
    ([], Except.error LoopExit.timeOver)
  else
    let sleep : Int :=
      if run.Req.WriteIntervalMs > 0 then
        pacingSleep run.Req.WriteIntervalMs lastSendTime e.paceTime
      else 0
    let len :=
      if run.Req.MaxBytes > 0 then
        min run.Req.WriteSize (wrapUint64 ((run.Req.MaxBytes : Int) - run.BytesSent))
      else run.Req.WriteSize
    let sent : SendRecord := ⟨e.now, sleep, e.sendTime, len⟩
    match e.write len with
    | (_, true) => ([sent], Except.error LoopExit.sendError)
    | (nbytes, false) =>
      ([sent], Except.ok { run with BytesSent := (run.BytesSent + nbytes) % 2 ^ 64 })

/-- The transmit loop of `UdpRun.Process` along a sequence of events, with the writes it
issues: the writes in order, the run when the events are used up or the loop is left, and the
exit reason (`none` while the loop is still going). -/
def UdpRun.loop (run : UdpRun) (lastSendTime : Option Int) :
    List RunEvent → List SendRecord × UdpRun × Option LoopExit
  | [] => ([], run, none)
  | RunEvent.stop :: es => run.Stop.loop lastSendTime es
  | RunEvent.iterate e :: es =>
    match run.iterate lastSendTime e with
    | (sends, Except.error reason) => (sends, run, some reason)
    | (sends, Except.ok run1) =>
      (sends ++ (run1.loop (some e.sendTime) es).1, (run1.loop (some e.sendTime) es).2)

/-- The outcome of `UdpRun.Process`: the run, why the loop was left (`none` when the dial
failed or the loop is still going), and the writes issued. -/
structure UdpProcessResult where
  run : UdpRun
  exit : Option LoopExit
  sends : List SendRecord

/-- `UdpRun.Process`: resolve the address and dial, wait for the start time, record `TrafficStartTime`, run the
transmit loop, record `TrafficEndTime` (`UnixNano` is an `int64`). -/
def UdpRun.Process (run : UdpRun) (env : ProcessEnv) : UdpProcessResult :=
  if env.dialed then
    match UdpRun.loop { run with TrafficStartTime := wrapInt64 env.startClock } none
        env.events with
    | (sends, run1, none) => ⟨run1, none, sends⟩
    | (sends, run1, some reason) =>
      ⟨{ run1 with TrafficEndTime := wrapInt64 env.endClock }, some reason, sends⟩
  else ⟨run, none, []⟩


/-! ## Machine integers -/

theorem wrapInt64_of_range (x : Int) (h1 : -(2 ^ 63) ≤ x) (h2 : x < 2 ^ 63) : wrapInt64 x = x := by
  unfold wrapInt64
  omega

/-! ## Histogram: index range and bucket update -/

theorem ibucket_range (h : histogram) (sample : F64) (hlen : 1 ≤ h.buckets.length) :
    0 ≤ h.ibucket sample ∧ h.ibucket sample < h.buckets.length := by
  simp only [histogram.ibucket]
  split_ifs <;> omega

theorem getD_le_sum (l : List Int) (hnn : ∀ c ∈ l, 0 ≤ c) (i : Nat) : l.getD i 0 ≤ l.sum := by
  induction l generalizing i with
  | nil => simp
  | cons a t ih =>
    have ha : 0 ≤ a := hnn a (by simp)
    have ht : ∀ c ∈ t, 0 ≤ c := fun c hc => hnn c (by simp [hc])
    have hs : 0 ≤ t.sum := List.sum_nonneg ht
    cases i with
    | zero => simp; omega
    | succ j =>
      have := ih ht j
      simp only [List.getD_cons_succ, List.sum_cons]
      omega

theorem sum_set_getD (l : List Int) (i : Nat) (v : Int) (hi : i < l.length) :
    (l.set i v).sum = l.sum - l.getD i 0 + v := by
  induction l generalizing i with
  | nil => simp at hi
  | cons a t ih =>
    cases i with
    | zero => simp; omega
    | succ j =>
      have := ih j (by simpa using hi)
      simp only [List.set_cons_succ, List.sum_cons, List.getD_cons_succ]
      omega

theorem nonneg_set (l : List Int) (i : Nat) (v : Int) (hnn : ∀ c ∈ l, 0 ≤ c) (hv : 0 ≤ v) :
    ∀ c ∈ l.set i v, 0 ≤ c := by
  intro c hc
  rcases List.mem_or_eq_of_mem_set hc with h | h
  · exact hnn c h
  · omega

/-- One `AddSample` on a histogram with at least one bucket succeeds and rewrites exactly one
bucket, the one at `ibucket`, leaving base and the other buckets as they were. -/
theorem AddSample_eq_set (h : histogram) (sample : F64) (hlen : 1 ≤ h.buckets.length) :
    h.AddSample sample = some ⟨h.base, h.buckets.set (h.ibucket sample).toNat
        (wrapInt64 (h.buckets.getD (h.ibucket sample).toNat 0 + 1))⟩ := by
  have hr := ibucket_range h sample hlen
  simp only [histogram.AddSample]
  rw [if_pos hr]

theorem addSamples_sum_aux (xs : List F64) : ∀ (h : histogram), 1 ≤ h.buckets.length →
    (∀ c ∈ h.buckets, 0 ≤ c) → h.buckets.sum + xs.length < 2 ^ 63 →
    ∃ h1, h.addSamples xs = some h1 ∧ h1.base = h.base ∧
      h1.buckets.length = h.buckets.length ∧ h1.buckets.sum = h.buckets.sum + xs.length := by
  induction xs with
  | nil => intro h _ _ _; exact ⟨h, rfl, rfl, rfl, by simp⟩
  | cons x xs ih =>
    intro h hlen hnn hsum
    have hr := ibucket_range h x hlen
    have hi : (h.ibucket x).toNat < h.buckets.length := by omega
    have hle := getD_le_sum h.buckets hnn (h.ibucket x).toNat
    have h0 : 0 ≤ h.buckets.getD (h.ibucket x).toNat 0 := by
      rw [List.getD_eq_getElem _ _ hi]
      exact hnn _ (List.getElem_mem _)
    simp only [List.length_cons, Nat.cast_add, Nat.cast_one] at hsum
    have hw : wrapInt64 (h.buckets.getD (h.ibucket x).toNat 0 + 1)
        = h.buckets.getD (h.ibucket x).toNat 0 + 1 :=
      wrapInt64_of_range _ (by omega) (by omega)
    have hstep := AddSample_eq_set h x hlen
    rw [hw] at hstep
    obtain ⟨h1, e1, eb, el, es⟩ := ih
      ⟨h.base, h.buckets.set (h.ibucket x).toNat
          (h.buckets.getD (h.ibucket x).toNat 0 + 1)⟩
      (by simpa using hlen)
      (nonneg_set _ _ _ hnn (by omega))
      (by
        simp only [sum_set_getD _ _ _ hi]
        omega)
    refine ⟨h1, ?_, ?_, ?_, ?_⟩
    · show (h.AddSample x).bind (fun h2 => h2.addSamples xs) = some h1
      rw [hstep]
      exact e1
    · simpa using eb
    · simpa using el
    · simp only [sum_set_getD _ _ _ hi] at es
      simp only [List.length_cons, Nat.cast_add, Nat.cast_one]
      omega

/-! ## Histogram: the repository's test vectors -/

/-- The sample sequences of `TestHistogram` and `TestHistogramBase10` give the bucket arrays the
tests expect. -/
theorem histogram_test_vectors :
    (NewHistogram 10 (F64.ofInt 2)).addSamples
        [F64.ofInt 0, F64.ofInt 1, F64.fin 3 (-1), F64.ofInt 2, F64.fin 5 (-1), F64.ofInt 4,
          F64.ofExact (10 ^ 100) 0]
      = some ⟨F64.ofInt 2, [1, 2, 2, 1, 0, 0, 0, 0, 0, 1]⟩ ∧
    (NewHistogram 10 (F64.ofInt 10)).addSamples
        [F64.ofInt 0, F64.ofInt 1, F64.ofInt 5, F64.ofInt 10, F64.ofInt 50, F64.ofInt 100,
          F64.ofExact (10 ^ 100) 0]
      = some ⟨F64.ofInt 10, [1, 2, 2, 1, 0, 0, 0, 0, 0, 1]⟩ := by
  decide!

/-! ## Histogram: claims -/

/-- C1, the code at a sample that is an exact power of the base: on `NewHistogram(10, 10.0)`
the sample `1000 = 10^3` lies in `[10^3, 10^4)`, the range of bucket 4, but the float64
quotient `math.Log(1000)/math.Log(10)` is `3 - 2^-51`, `int` truncates it to 2, and `AddSample`
increments bucket 3. -/
theorem AddSample_thousand_base_ten :
    F64.div (F64.Log (F64.ofInt 1000)) (F64.Log (F64.ofInt 10))
      = F64.fin (3 * 2 ^ 51 - 1) (-51) ∧
    (NewHistogram 10 (F64.ofInt 10)).ibucket (F64.ofInt 1000) = 3 ∧
    (NewHistogram 10 (F64.ofInt 10)).AddSample (F64.ofInt 1000)
      = some ⟨F64.ofInt 10, [0, 0, 0, 1, 0, 0, 0, 0, 0, 0]⟩ := by
  decide!

/-- C2, the code at a sample strictly between `1/base` and `1`: on `NewHistogram(10, 2.0)` the
sample `0.75` has quotient `math.Log(0.75)/math.Log(2)` in `(-1, 0)`, Go's `int` truncates it
toward zero to `0` (its floor is `-1`), and `AddSample` increments bucket 1, not bucket 0.  The
samples `0`, `0.5` and `-3` do land in bucket 0. -/
theorem AddSample_three_quarters_base_two :
    F64.toInt (F64.div (F64.Log (F64.fin 3 (-2))) (F64.Log (F64.ofInt 2))) = 0 ∧
    (NewHistogram 10 (F64.ofInt 2)).ibucket (F64.fin 3 (-2)) = 1 ∧
    (NewHistogram 10 (F64.ofInt 2)).AddSample (F64.fin 3 (-2))
      = some ⟨F64.ofInt 2, [0, 1, 0, 0, 0, 0, 0, 0, 0, 0]⟩ ∧
    (NewHistogram 10 (F64.ofInt 2)).ibucket (F64.ofInt 0) = 0 ∧
    (NewHistogram 10 (F64.ofInt 2)).ibucket (F64.fin 1 (-1)) = 0 ∧
    (NewHistogram 10 (F64.ofInt 2)).ibucket (F64.ofInt (-3)) = 0 := by
  decide!

/-- C3, as stated, fails for `N = 0`: `NewHistogram(0, 2.0)` has no bucket, the index computed
for the sample `1` is `len - 1 = -1`, outside `[0, N-1]` and outside the array, and the update
panics. -/
theorem ibucket_zero_buckets :
    (NewHistogram 0 (F64.ofInt 2)).ibucket (F64.ofInt 1) = -1 ∧
    ¬ (0 ≤ (NewHistogram 0 (F64.ofInt 2)).ibucket (F64.ofInt 1) ∧
        (NewHistogram 0 (F64.ofInt 2)).ibucket (F64.ofInt 1) ≤ ((0 : Nat) : Int) - 1) ∧
    (NewHistogram 0 (F64.ofInt 2)).AddSample (F64.ofInt 1) = none := by
  decide!

/-- C3, amended: for every `N ≥ 1`, every base and every sample (NaN and the infinities
included), the index chosen by `AddSample` on `NewHistogram(N, base)` is in `[0, N-1]`, and the
bucket update does not panic. -/
theorem ibucket_in_bounds (size : Nat) (base sample : F64) (hsize : 1 ≤ size) :
    0 ≤ (NewHistogram size base).ibucket sample ∧
    (NewHistogram size base).ibucket sample ≤ (size : Int) - 1 ∧
    ∃ h1, (NewHistogram size base).AddSample sample = some h1 := by
  have hlen : 1 ≤ (NewHistogram size base).buckets.length := by
    simpa [NewHistogram] using hsize
  have hr := ibucket_range (NewHistogram size base) sample hlen
  have hl : (NewHistogram size base).buckets.length = size := by simp [NewHistogram]
  rw [hl] at hr
  exact ⟨hr.1, by omega, _, AddSample_eq_set _ sample hlen⟩

/-- Witness of C3 (amended) at `N = 10`, base `2.0` and the sample `+Inf`. -/
theorem ibucket_in_bounds_witness :
    1 ≤ 10 ∧
    0 ≤ (NewHistogram 10 (F64.ofInt 2)).ibucket (F64.inf false) ∧
    (NewHistogram 10 (F64.ofInt 2)).ibucket (F64.inf false) ≤ ((10 : Nat) : Int) - 1 ∧
    ∃ h1, (NewHistogram 10 (F64.ofInt 2)).AddSample (F64.inf false) = some h1 :=
  ⟨by decide, ibucket_in_bounds 10 (F64.ofInt 2) (F64.inf false) (by decide)⟩

/-- C10: for every `N ≥ 1`, every base and every sequence of `k < 2^63` samples, the `k`
calls of `AddSample` on a fresh `NewHistogram(N, base)` all succeed, keep `N` buckets, and leave
bucket counts whose sum is `k`; and each call on a histogram with at least one bucket rewrites
exactly one bucket, the one at `ibucket`, to its count plus one (in `int` arithmetic), leaving
the others unchanged. -/
theorem addSamples_sum (size : Nat) (base : F64) (xs : List F64) (hsize : 1 ≤ size)
    (hk : (xs.length : Int) < 2 ^ 63) :
    (∃ h1, (NewHistogram size base).addSamples xs = some h1 ∧ h1.buckets.length = size ∧
      h1.buckets.sum = xs.length) ∧
    (∀ (h : histogram) (x : F64), 1 ≤ h.buckets.length →
      ∃ i, i < h.buckets.length ∧
        h.AddSample x = some ⟨h.base, h.buckets.set i (wrapInt64 (h.buckets.getD i 0 + 1))⟩) := by
  constructor
  · obtain ⟨h1, e, _, el, es⟩ := addSamples_sum_aux xs (NewHistogram size base)
      (by simpa [NewHistogram] using hsize)
      (by intro c hc; simp [NewHistogram] at hc; omega)
      (by simp [NewHistogram]; omega)
    refine ⟨h1, e, ?_, ?_⟩
    · simpa [NewHistogram] using el
    · simpa [NewHistogram] using es
  · intro h x hlen
    have hr := ibucket_range h x hlen
    exact ⟨(h.ibucket x).toNat, by omega, AddSample_eq_set h x hlen⟩

/-- Witness of C10 on `NewHistogram(5, 2.0)` with the samples `1` and `4` of `TestPrintHistogram`. -/
theorem addSamples_sum_witness :
    1 ≤ 5 ∧ (([F64.ofInt 1, F64.ofInt 4] : List F64).length : Int) < 2 ^ 63 ∧
    (NewHistogram 5 (F64.ofInt 2)).addSamples [F64.ofInt 1, F64.ofInt 4]
      = some ⟨F64.ofInt 2, [0, 1, 0, 1, 0]⟩ ∧
    (∃ h1, (NewHistogram 5 (F64.ofInt 2)).addSamples [F64.ofInt 1, F64.ofInt 4] = some h1 ∧
      h1.buckets.length = 5 ∧ h1.buckets.sum = ([F64.ofInt 1, F64.ofInt 4] : List F64).length) :=
  ⟨by decide, by decide, by decide!,
    (addSamples_sum 5 (F64.ofInt 2) [F64.ofInt 1, F64.ofInt 4] (by decide) (by decide)).1⟩

/-! ## Histogram: `Print` -/

theorem printFrom_length (h : histogram) (counts : List Int) : ∀ (i : Nat) (low : F64),
    (h.printFrom i low counts).length = counts.length := by
  induction counts with
  | nil => intro i low; rfl
  | cons c cs ih =>
    intro i low
    simp only [histogram.printFrom, List.length_cons, ih]

theorem printFrom_get (h : histogram) (counts : List Int) : ∀ (i : Nat) (low : F64) (j : Nat),
    j < counts.length →
    (h.printFrom i low counts).get? j = some
      (padRight10 ("[".data ++
          fmtInt (F64.toInt (if j = 0 then low else F64.PowIndex h.base (i + j - 1))) ++
          (if ((i + j : Nat) : Int) = (h.buckets.length : Int) - 1 then "--[".data
            else "--".data ++ fmtInt (F64.toInt (F64.PowIndex h.base (i + j))) ++ "[".data))
        ++ " : ".data ++ fmtInt (counts.getD j 0) ++ "\n".data) := by
  induction counts with
  | nil => intro i low j hj; simp at hj
  | cons c cs ih =>
    intro i low j hj
    cases j with
    | zero =>
      simp only [histogram.printFrom, List.get?_cons_zero, Nat.add_zero, if_true,
        List.getD_cons_zero]
      split_ifs <;> simp only [List.append_assoc]
    | succ j =>
      have hj1 : j < cs.length := by simpa using hj
      have h1 := ih (i + 1) (F64.PowIndex h.base i) j hj1
      have e1 : i + 1 + j = i + (j + 1) := by omega
      simp only [histogram.printFrom, List.get?_cons_succ, List.getD_cons_succ]
      rw [h1, e1]
      have e2 : (if j = 0 then F64.PowIndex h.base i else F64.PowIndex h.base (i + (j + 1) - 1))
          = F64.PowIndex h.base (i + (j + 1) - 1) := by
        split_ifs with hz
        · subst hz
          rfl
        · rfl
      rw [e2]
      simp

/-- C15, as stated, fails on its own example: for `NewHistogram(5, 2.0)` after the samples 1 and
4, `Print` writes every label left-justified in a field of width 10 and then `" : "`, so the
first line is `"[0--1[     : 0"`, not `"[0--1[: 0"`.  And a bound outside the range of `int` is
not printed as its integer part: in `NewHistogram(21, 10.0)` line 19 has `high = 10^19`, printed
as `-9223372036854775808`. -/
theorem Print_example_lines :
    ((NewHistogram 5 (F64.ofInt 2)).addSamples [F64.ofInt 1, F64.ofInt 4]).map histogram.Print
      = some ["[0--1[     : 0\n".data, "[1--2[     : 1\n".data, "[2--4[     : 0\n".data,
          "[4--8[     : 1\n".data, "[8--[      : 0\n".data] ∧
    "[0--1[     : 0\n".data ≠ "[0--1[: 0\n".data ∧
    (NewHistogram 21 (F64.ofInt 10)).Print.get? 19
      = some "[1000000000000000000---9223372036854775808[ : 0\n".data := by
  decide!

/-- C15, amended: for every histogram with `N` buckets, `Print` writes exactly `N` lines in
ascending bucket order; line `i` is the label `"[low--high["` (`"[low--["` on the last line),
with `low = 0` for `i = 0` and `low = math.Pow(base, i-1)` otherwise, `high = math.Pow(base, i)`,
both converted with Go's `int` and printed in decimal, the label left-justified and padded with
spaces to width 10, followed by `" : "`, the bucket's count in decimal and a newline. -/
theorem Print_lines (h : histogram) :
    h.Print.length = h.buckets.length ∧
    ∀ i, i < h.buckets.length →
      h.Print.get? i = some
        (padRight10 ("[".data ++
            fmtInt (F64.toInt (if i = 0 then F64.fin 0 0 else F64.PowIndex h.base (i - 1))) ++
            (if i + 1 = h.buckets.length then "--[".data
              else "--".data ++ fmtInt (F64.toInt (F64.PowIndex h.base i)) ++ "[".data))
          ++ " : ".data ++ fmtInt (h.buckets.getD i 0) ++ "\n".data) := by
  refine ⟨printFrom_length h h.buckets 0 _, fun i hi => ?_⟩
  have hg := printFrom_get h h.buckets 0 (F64.fin 0 0) i hi
  simp only [Nat.zero_add] at hg
  have hc : (((i : Nat) : Int) = (h.buckets.length : Int) - 1) ↔ i + 1 = h.buckets.length := by
    omega
  simp only [hc] at hg
  exact hg

/-- Witness of C15 (amended): line 4, the last one, of the histogram of `TestPrintHistogram`. -/
theorem Print_lines_witness :
    4 < (⟨F64.ofInt 2, [0, 1, 0, 1, 0]⟩ : histogram).buckets.length ∧
    (⟨F64.ofInt 2, [0, 1, 0, 1, 0]⟩ : histogram).Print.get? 4 = some "[8--[      : 0\n".data :=
  ⟨by decide, by
    rw [(Print_lines ⟨F64.ofInt 2, [0, 1, 0, 1, 0]⟩).2 4 (by decide)]
    decide!⟩

/-! ## Series file: decimal rendering and reading back -/

theorem digitChar_isDigit (k : Nat) (hk : k < 10) :
    (Nat.digitChar k).isDigit = true ∧ (Nat.digitChar k).toNat - 48 = k := by
  interval_cases k <;> decide

theorem readDigits_toDigitsCore (fuel : Nat) : ∀ (n : Nat) (ds rest : List Char), n < fuel →
    readDigits 0 (Nat.toDigitsCore 10 fuel n ds ++ rest) = readDigits n (ds ++ rest) := by
  induction fuel with
  | zero => intro n ds rest h; omega
  | succ fuel ih =>
    intro n ds rest h
    have hd := digitChar_isDigit (n % 10) (Nat.mod_lt _ (by decide))
    by_cases h0 : n / 10 = 0
    · have hn : n % 10 = n := by omega
      simp only [Nat.toDigitsCore, h0, if_true, List.cons_append, readDigits, hd.1, hd.2]
      simp [hn]
    · have hlt : n / 10 < fuel := by omega
      simp only [Nat.toDigitsCore, h0, if_false]
      rw [ih (n / 10) _ rest hlt]
      simp only [List.cons_append, readDigits, hd.1, hd.2, if_true]
      congr 1
      omega

theorem toDigitsCore_head (fuel : Nat) : ∀ (n : Nat) (ds : List Char), n < fuel →
    ∃ c cs, Nat.toDigitsCore 10 fuel n ds = c :: cs ∧ c.isDigit = true := by
  induction fuel with
  | zero => intro n ds h; omega
  | succ fuel ih =>
    intro n ds h
    have hd := digitChar_isDigit (n % 10) (Nat.mod_lt _ (by decide))
    by_cases h0 : n / 10 = 0
    · exact ⟨_, ds, by simp only [Nat.toDigitsCore, h0, if_true], hd.1⟩
    · have hlt : n / 10 < fuel := by omega
      obtain ⟨c, cs, e, hc⟩ := ih (n / 10) (Nat.digitChar (n % 10) :: ds) hlt
      exact ⟨c, cs, by simp only [Nat.toDigitsCore, h0, if_false, e], hc⟩

theorem readDigits_stop (n : Nat) (c : Char) (rest : List Char) (hc : c.isDigit = false) :
    readDigits n (c :: rest) = (n, c :: rest) := by
  simp [readDigits, hc]

/-- Reading back the decimal rendering of `n` gives `n` and stops at the first non-digit. -/
theorem readNat_toDigits (n : Nat) (c : Char) (rest : List Char) (hc : c.isDigit = false) :
    readNat (Nat.toDigits 10 n ++ c :: rest) = some (n, c :: rest) := by
  obtain ⟨d, ds, e, hd⟩ := toDigitsCore_head (n + 1) n [] (Nat.lt_succ_self n)
  have hr := readDigits_toDigitsCore (n + 1) n [] (c :: rest) (Nat.lt_succ_self n)
  simp only [Nat.toDigits] at *
  rw [e] at hr ⊢
  simp only [List.cons_append, readNat, hd, if_true]
  rw [List.cons_append] at hr
  rw [hr, List.nil_append, readDigits_stop n c rest hc]

theorem readRecord_line (s : Sample) (rest : List Char) :
    readRecord (s.line ++ rest) = some (s, rest) := by
  have h1 : s.line ++ rest = Nat.toDigits 10 s.timestamp ++
      '\t' :: (Nat.toDigits 10 s.latencyNs ++ '\n' :: rest) := by
    simp [Sample.line]
  rw [h1]
  simp only [readRecord]
  rw [readNat_toDigits s.timestamp '\t' _ (by decide)]
  simp only []
  rw [readNat_toDigits s.latencyNs '\n' _ (by decide)]
  rfl

theorem line_ne_nil (s : Sample) : s.line ≠ [] := by
  simp [Sample.line]

theorem readSeriesAux_lines (ss : List Sample) : ∀ fuel, ss.length ≤ fuel →
    readSeriesAux fuel (ss.map Sample.line).flatten = some ss := by
  induction ss with
  | nil => intro fuel _; cases fuel <;> rfl
  | cons s ss ih =>
    intro fuel hf
    cases fuel with
    | zero => simp at hf
    | succ fuel =>
      have hne := line_ne_nil s
      have hrec := readRecord_line s (ss.map Sample.line).flatten
      simp only [List.map_cons, List.flatten_cons]
      cases hl : s.line ++ (ss.map Sample.line).flatten with
      | nil => simp [hne] at hl
      | cons c cs =>
        rw [hl] at hrec
        simp only [readSeriesAux, hrec]
        rw [ih fuel (by simpa using hf)]
        rfl

theorem length_le_lines (ss : List Sample) : ss.length ≤ (ss.map Sample.line).flatten.length := by
  induction ss with
  | nil => simp
  | cons s ss ih =>
    have : 1 ≤ s.line.length := by
      cases h : s.line with
      | nil => exact absurd h (line_ne_nil s)
      | cons c cs => simp
    simp only [List.map_cons, List.flatten_cons, List.length_append, List.length_cons]
    omega

/-- Reading back the joined lines of a list of samples gives that list. -/
theorem readSeries_lines (ss : List Sample) :
    readSeries (ss.map Sample.line).flatten = some ss :=
  readSeriesAux_lines ss _ (length_le_lines ss)

/-! ## Latency probe: helper lemmas -/

theorem intervalDuration_of_fit (i : Int) (h1 : -(2 ^ 63) ≤ i * 1000000)
    (h2 : i * 1000000 < 2 ^ 63) : intervalDuration i = i * 1000000 :=
  wrapInt64_of_range _ h1 h2

theorem append_elems (s : SampleSlice) (x : Sample) : (s.append x).elems = s.elems ++ [x] := by
  unfold SampleSlice.append
  split_ifs <;> rfl

theorem append_cap_of_lt (s : SampleSlice) (x : Sample) (h : s.elems.length < s.cap) :
    (s.append x).cap = s.cap := by
  unfold SampleSlice.append
  rw [if_pos h]

theorem getLatency_skip (p : latencyProbe) (o : GetOutcome)
    (h : o.err = true ∧ o.latency < intervalDuration p.intervalMs) :
    p.getLatency o = (p, none) := by
  unfold latencyProbe.getLatency
  rw [if_pos h]

theorem getLatency_record (p : latencyProbe) (o : GetOutcome)
    (h : ¬ (o.err = true ∧ o.latency < intervalDuration p.intervalMs)) :
    p.getLatency o =
      ({ p with series := p.series.append ⟨wrapUint64 o.startNs, wrapUint64 o.latency⟩ },
        some o.latency) := by
  unfold latencyProbe.getLatency
  rw [if_neg h]

theorem tick_skip (p : latencyProbe) (o : GetOutcome)
    (h : o.err = true ∧ o.latency < intervalDuration p.intervalMs) :
    p.tick o = { p with counter := wrapInt64 (p.counter + 1) } := by
  unfold latencyProbe.tick
  simp only []
  rw [getLatency_skip { p with counter := wrapInt64 (p.counter + 1) } o h]

theorem tick_record (p : latencyProbe) (o : GetOutcome)
    (h : ¬ (o.err = true ∧ o.latency < intervalDuration p.intervalMs)) :
    p.tick o =
      if (p.series.append ⟨wrapUint64 o.startNs, wrapUint64 o.latency⟩).elems.length
          ≥ (p.series.append ⟨wrapUint64 o.startNs, wrapUint64 o.latency⟩).cap then
        latencyProbe.flush { p with
          counter := wrapInt64 (p.counter + 1)
          series := p.series.append ⟨wrapUint64 o.startNs, wrapUint64 o.latency⟩
          latency := o.latency }
      else
        { p with
          counter := wrapInt64 (p.counter + 1)
          series := p.series.append ⟨wrapUint64 o.startNs, wrapUint64 o.latency⟩
          latency := o.latency } := by
  unfold latencyProbe.tick
  simp only []
  rw [getLatency_record { p with counter := wrapInt64 (p.counter + 1) } o h]

theorem flush_intervalMs (p : latencyProbe) : p.flush.intervalMs = p.intervalMs := rfl

theorem tick_intervalMs (p : latencyProbe) (o : GetOutcome) :
    (p.tick o).intervalMs = p.intervalMs := by
  by_cases h : o.err = true ∧ o.latency < intervalDuration p.intervalMs
  · rw [tick_skip p o h]
  · rw [tick_record p o h]
    split_ifs <;> rfl

theorem tick_counter (p : latencyProbe) (o : GetOutcome) :
    (p.tick o).counter = wrapInt64 (p.counter + 1) := by
  by_cases h : o.err = true ∧ o.latency < intervalDuration p.intervalMs
  · rw [tick_skip p o h]
  · rw [tick_record p o h]
    split_ifs <;> rfl

/-- The text written so far followed by the lines of the buffer, that is what the series file
holds once the buffer is flushed, grows by exactly the line of the sample a tick appends. -/
theorem tick_log_and_buffer (p : latencyProbe) (o : GetOutcome) :
    ((p.tick o).logFile.map fun text =>
        text ++ ((p.tick o).series.elems.map Sample.line).flatten) =
      p.logFile.map fun text => text ++
        ((p.series.elems ++ appended p.intervalMs [ProbeEvent.tick o]).map Sample.line).flatten := by
  by_cases h : o.err = true ∧ o.latency < intervalDuration p.intervalMs
  · rw [tick_skip p o h]
    simp [appended, h]
  · rw [tick_record p o h]
    split_ifs <;> cases hl : p.logFile <;> simp [appended, h, latencyProbe.flush, append_elems, hl]

theorem flush_log_and_buffer (p : latencyProbe) :
    (p.flush.logFile.map fun text =>
        text ++ (p.flush.series.elems.map Sample.line).flatten) =
      p.logFile.map fun text => text ++ (p.series.elems.map Sample.line).flatten := by
  cases hl : p.logFile <;> simp [latencyProbe.flush, hl]

theorem appended_cons_tick (i : Int) (o : GetOutcome) (es : List ProbeEvent) :
    appended i (ProbeEvent.tick o :: es) = appended i [ProbeEvent.tick o] ++ appended i es := by
  simp only [appended]
  split_ifs <;> simp

theorem map_lines_append (log : Option (List Char)) (xs ys : List Sample) :
    (log.map fun text => text ++ ((xs ++ ys).map Sample.line).flatten) =
      (log.map fun text => text ++ (xs.map Sample.line).flatten).map
        fun text => text ++ (ys.map Sample.line).flatten := by
  cases log <;> simp

theorem events_log_and_buffer (es : List ProbeEvent) : ∀ (p : latencyProbe),
    ((p.events es).logFile.map fun text =>
        text ++ ((p.events es).series.elems.map Sample.line).flatten) =
      p.logFile.map fun text => text ++
        ((p.series.elems ++ appended p.intervalMs es).map Sample.line).flatten := by
  induction es with
  | nil => intro p; simp [latencyProbe.events, appended]
  | cons e es ih =>
    intro p
    cases e with
    | tick o =>
      have e : p.events (ProbeEvent.tick o :: es) = (p.tick o).events es := rfl
      rw [e, ih (p.tick o), tick_intervalMs, appended_cons_tick, map_lines_append,
        tick_log_and_buffer, ← map_lines_append, List.append_assoc]
    | flush =>
      have e : p.events (ProbeEvent.flush :: es) = p.flush.events es := rfl
      have ea : appended p.intervalMs (ProbeEvent.flush :: es) = appended p.intervalMs es := rfl
      rw [e, ih p.flush, flush_intervalMs, ea, map_lines_append, flush_log_and_buffer,
        ← map_lines_append]

theorem events_append_flush (es : List ProbeEvent) : ∀ (p : latencyProbe),
    p.events (es ++ [ProbeEvent.flush]) = (p.events es).flush := by
  induction es with
  | nil => intro p; rfl
  | cons e es ih =>
    intro p
    cases e with
    | tick o => exact ih (p.tick o)
    | flush => exact ih p.flush

theorem NewLatencyProbe_of_fit (id target path : String) (opened : Bool) (intervalMs : Int)
    (hpos : 0 < intervalMs) (hfit : intervalMs * 1000000 < 2 ^ 63) :
    ∃ p, NewLatencyProbe id target intervalMs path opened = some p ∧
      p.intervalMs = intervalMs ∧ p.series.elems = [] ∧
      (p.series.cap : Int) = 60000 / intervalMs := by
  have hd := intervalDuration_of_fit intervalMs (by omega) hfit
  have hq : Int.tdiv (1 * 60000000000) (intervalMs * 1000000) = 60000 / intervalMs := by
    rw [Int.tdiv_eq_ediv (by norm_num) (by omega)]
    have : (1 * 60000000000 : Int) = 60000 * 1000000 := by norm_num
    rw [this]
    exact Int.mul_ediv_mul_of_pos_left 60000 intervalMs (by norm_num)
  have hq0 : 0 ≤ 60000 / intervalMs := Int.ediv_nonneg (by norm_num) (by omega)
  have hq1 : 60000 / intervalMs ≤ 60000 := Int.ediv_le_self _ (by norm_num)
  have hw : wrapInt64 (60000 / intervalMs) = 60000 / intervalMs :=
    wrapInt64_of_range _ (by omega) (by omega)
  have hne : ¬ (intervalMs * 1000000 = 0) := by omega
  refine ⟨⟨id, intervalMs, ⟨[], (60000 / intervalMs).toNat⟩, target, 0, 0,
    if opened then path else "", if opened then some [] else none⟩, ?_, rfl, rfl,
    Int.toNat_of_nonneg hq0⟩
  simp only [NewLatencyProbe, hd, hq, hw, hne, if_false, not_lt.mpr hq0]


/-! ## Latency probe: claims -/

/-- C5, as stated, fails when `interval_ms × 10^6` does not fit `time.Duration`: for
`intervalMs = 18446744073710` the `int64` product wraps to `448384` ns, so a GET that returned
an error after `500000` ns, far less than `interval_ms` milliseconds, is still recorded as a
sample and becomes the latest latency. -/
theorem tick_overflowed_interval :
    intervalDuration 18446744073710 = 448384 ∧
    (500000 : Int) < 18446744073710 * 1000000 ∧
    (NewLatencyProbe "peer" "http://peer/ping" 18446744073710 "peer.series" true).map
        (fun p => ((p.tick ⟨0, 500000, true⟩).series.elems, (p.tick ⟨0, 500000, true⟩).latency))
      = some ([⟨0, 500000⟩], 500000) := by
  decide!

/-- C5, amended: for a probe whose interval in nanoseconds `interval_ms × 10^6` fits
`time.Duration`, whose counter is below the largest `int64` and for a latency that is a
`time.Duration`, one tick increases the counter by exactly 1; if the GET returned an error and
the latency is strictly less than `interval_ms` milliseconds the buffer, the latest latency and
the log are unchanged; otherwise exactly the sample `(t0_ns, latency_ns)` is appended at the end
of the buffer, the latest latency becomes that latency, and the tick ends with the flush of the
buffer when it reached its capacity; a sample recorded from a request that returned an error has
`latency_ns ≥ interval_ms × 10^6`. -/
theorem tick_counter_sample_latency (p : latencyProbe) (o : GetOutcome)
    (hfit : -(2 ^ 63) ≤ p.intervalMs * 1000000 ∧ p.intervalMs * 1000000 < 2 ^ 63)
    (hcnt : -(2 ^ 63) ≤ p.counter ∧ p.counter < 2 ^ 63 - 1)
    (hlat : -(2 ^ 63) ≤ o.latency ∧ o.latency < 2 ^ 63) :
    (p.tick o).counter = p.counter + 1 ∧
    ((o.err = true ∧ o.latency < p.intervalMs * 1000000) →
      (p.tick o).series = p.series ∧ (p.tick o).latency = p.latency ∧
      (p.tick o).logFile = p.logFile) ∧
    (¬ (o.err = true ∧ o.latency < p.intervalMs * 1000000) →
      (p.getLatency o).1.series.elems
        = p.series.elems ++ [⟨wrapUint64 o.startNs, wrapUint64 o.latency⟩] ∧
      (p.tick o).latency = o.latency ∧
      p.tick o =
        if (p.getLatency o).1.series.elems.length ≥ (p.getLatency o).1.series.cap then
          latencyProbe.flush { p with
            counter := p.counter + 1
            series := (p.getLatency o).1.series
            latency := o.latency }
        else
          { p with
            counter := p.counter + 1
            series := (p.getLatency o).1.series
            latency := o.latency }) ∧
    (o.err = true → ¬ (o.latency < p.intervalMs * 1000000) →
      p.intervalMs * 1000000 ≤ (wrapUint64 o.latency : Int)) := by
  have hd := intervalDuration_of_fit p.intervalMs hfit.1 hfit.2
  have hc : wrapInt64 (p.counter + 1) = p.counter + 1 :=
    wrapInt64_of_range _ (by omega) (by omega)
  refine ⟨by rw [tick_counter, hc], ?_, ?_, ?_⟩
  · intro h
    rw [← hd] at h
    rw [tick_skip p o h]
    exact ⟨rfl, rfl, rfl⟩
  · intro h
    rw [← hd] at h
    rw [tick_record p o h, getLatency_record p o h, hc]
    refine ⟨append_elems _ _, ?_, rfl⟩
    split_ifs <;> rfl
  · intro _ h
    have : (wrapUint64 o.latency : Int) = o.latency % 2 ^ 64 := by
      unfold wrapUint64
      exact Int.toNat_of_nonneg (Int.emod_nonneg _ (by norm_num))
    rw [this]
    omega

/-- Witness of C5 (amended): a probe with a 1000 ms interval and a GET that fails after 1.000000042 s. -/
theorem tick_counter_sample_latency_witness :
    ((-(2 ^ 63) : Int) ≤ 1000 * 1000000 ∧ (1000 : Int) * 1000000 < 2 ^ 63) ∧
    (latencyProbe.tick ⟨"peer", 1000, ⟨[], 60⟩, "http://peer/ping", 0, 0, "peer.series", some []⟩
      ⟨1700000000000000000, 1000000042, true⟩).counter = 0 + 1 ∧
    (latencyProbe.tick ⟨"peer", 1000, ⟨[], 60⟩, "http://peer/ping", 0, 0, "peer.series", some []⟩
      ⟨1700000000000000000, 1000000042, true⟩).series.elems
        = [⟨1700000000000000000, 1000000042⟩] :=
  ⟨by decide,
    (tick_counter_sample_latency
      ⟨"peer", 1000, ⟨[], 60⟩, "http://peer/ping", 0, 0, "peer.series", some []⟩
      ⟨1700000000000000000, 1000000042, true⟩ (by decide) (by decide) (by decide)).1,
    by decide!⟩

/-- C6, as stated, fails: the capacity is the truncated quotient, not the ceiling.  For
`interval_ms = 7000` it is 8 (the ceiling of `60000/7000` is 9) and for `interval_ms = 90000`
it is 0 (the ceiling is 1).  For `interval_ms = 18446744073710`, whose nanoseconds overflow
`time.Duration`, it is 133813 (the ceiling of `60000/interval_ms` is 1). -/
theorem NewLatencyProbe_capacity_truncates :
    (NewLatencyProbe "peer" "http://peer/ping" 7000 "peer.series" true).map
        (fun p => p.series) = some ⟨[], 8⟩ ∧
    (60000 + 7000 - 1) / 7000 = 9 ∧
    (NewLatencyProbe "peer" "http://peer/ping" 90000 "peer.series" true).map
        (fun p => p.series) = some ⟨[], 0⟩ ∧
    (60000 + 90000 - 1) / 90000 = 1 ∧
    (NewLatencyProbe "peer" "http://peer/ping" 18446744073710 "peer.series" true).map
        (fun p => p.series) = some ⟨[], 133813⟩ := by
  decide!

/-- C6, amended: for every `interval_ms > 0` whose value in nanoseconds fits `time.Duration`,
`NewLatencyProbe` creates an empty series buffer whose capacity is the integer quotient
`60000 / interval_ms` (rounded down). -/
theorem NewLatencyProbe_capacity (id target path : String) (opened : Bool) (intervalMs : Int)
    (hpos : 0 < intervalMs) (hfit : intervalMs * 1000000 < 2 ^ 63) :
    ∃ p, NewLatencyProbe id target intervalMs path opened = some p ∧
      p.intervalMs = intervalMs ∧ p.series.elems = [] ∧
      (p.series.cap : Int) = 60000 / intervalMs :=
  NewLatencyProbe_of_fit id target path opened intervalMs hpos hfit

/-- Witness of C6 (amended) at `interval_ms = 7000`. -/
theorem NewLatencyProbe_capacity_witness :
    (0 : Int) < 7000 ∧ (7000 : Int) * 1000000 < 2 ^ 63 ∧
    ∃ p, NewLatencyProbe "peer" "http://peer/ping" 7000 "peer.series" true = some p ∧
      p.intervalMs = 7000 ∧ p.series.elems = [] ∧
      (p.series.cap : Int) = 60000 / 7000 :=
  ⟨by decide, by decide,
    NewLatencyProbe_capacity "peer" "http://peer/ping" "peer.series" true 7000
      (by decide) (by decide)⟩

theorem tick_keeps_room (p : latencyProbe) (o : GetOutcome)
    (h : p.series.elems.length < p.series.cap) :
    (p.tick o).series.cap = p.series.cap ∧ (p.tick o).series.elems.length < p.series.cap := by
  by_cases hc : o.err = true ∧ o.latency < intervalDuration p.intervalMs
  · rw [tick_skip p o hc]
    exact ⟨rfl, h⟩
  · rw [tick_record p o hc]
    have hcap := append_cap_of_lt p.series ⟨wrapUint64 o.startNs, wrapUint64 o.latency⟩ h
    have hel := append_elems p.series ⟨wrapUint64 o.startNs, wrapUint64 o.latency⟩
    split_ifs with hfull
    · simp only [latencyProbe.flush, hcap, List.length_nil]
      exact ⟨trivial, by omega⟩
    · simp only [hcap, hel, List.length_append, List.length_singleton] at hfull ⊢
      exact ⟨trivial, by omega⟩

theorem ticks_keep_room (os : List GetOutcome) : ∀ (p : latencyProbe),
    p.series.elems.length < p.series.cap →
    (p.ticks os).series.cap = p.series.cap ∧
      (p.ticks os).series.elems.length < p.series.cap := by
  induction os with
  | nil => intro p h; exact ⟨rfl, h⟩
  | cons o os ih =>
    intro p h
    have h1 := tick_keeps_room p o h
    have h2 := ih (p.tick o) (by rw [h1.1]; exact h1.2)
    rw [h1.1] at h2
    exact h2

/-- C7, as stated, fails for an interval above one minute: for `interval_ms = 90000` the
capacity fixed at construction is 0, so at the first append the length 0 is not strictly below
the capacity, the append brings the length to 1, above that capacity, and Go's `append` moves
the buffer to a new array: after the tick the capacity is 1. -/
theorem ticks_zero_capacity :
    (NewLatencyProbe "peer" "http://peer/ping" 90000 "peer.series" true).map
        (fun p => (p.series.cap, decide (p.series.elems.length < p.series.cap),
          (p.getLatency ⟨0, 1000, false⟩).1.series.elems.length,
          (p.tick ⟨0, 1000, false⟩).series.cap))
      = some (0, false, 1, 1) := by
  decide!

/-- C7, amended: for every probe with `0 < interval_ms ≤ 60000` and every sequence of ticks,
the capacity stays the one fixed at construction (at least 1), the buffer length is strictly
below it at the start of every tick, hence when the next append happens, it does not exceed it
after the append, and a tick whose append brings the length to the capacity ends with the buffer
flushed (empty, its lines appended to the log). -/
theorem ticks_buffer_within_capacity (id target path : String) (opened : Bool)
    (intervalMs : Int) (os : List GetOutcome) (o : GetOutcome)
    (hpos : 0 < intervalMs) (hle : intervalMs ≤ 60000) :
    ∃ p0, NewLatencyProbe id target intervalMs path opened = some p0 ∧
      1 ≤ p0.series.cap ∧
      (p0.ticks os).series.cap = p0.series.cap ∧
      (p0.ticks os).series.elems.length < p0.series.cap ∧
      ((p0.ticks os).getLatency o).1.series.cap = p0.series.cap ∧
      ((p0.ticks os).getLatency o).1.series.elems.length ≤ p0.series.cap ∧
      (((p0.ticks os).getLatency o).1.series.elems.length = p0.series.cap →
        ((p0.ticks os).tick o).series = ⟨[], p0.series.cap⟩ ∧
        ((p0.ticks os).tick o).logFile = (p0.ticks os).logFile.map fun text => text ++
          (((p0.ticks os).getLatency o).1.series.elems.map Sample.line).flatten) := by
  obtain ⟨p0, e0, _, hel0, hcap0⟩ :=
    NewLatencyProbe_of_fit id target path opened intervalMs hpos (by omega)
  have hq : 1 ≤ 60000 / intervalMs := by
    have : 1 * intervalMs ≤ 60000 := by omega
    exact (Int.le_ediv_iff_mul_le hpos).mpr this
  have hcap1 : 1 ≤ p0.series.cap := by omega
  have hroom0 : p0.series.elems.length < p0.series.cap := by
    rw [hel0]
    simpa using hcap1
  obtain ⟨hc, hl⟩ := ticks_keep_room os p0 hroom0
  have hl1 : (p0.ticks os).series.elems.length < (p0.ticks os).series.cap := by
    rw [hc]
    exact hl
  refine ⟨p0, e0, hcap1, hc, hl, ?_⟩
  by_cases hs : o.err = true ∧ o.latency < intervalDuration (p0.ticks os).intervalMs
  · rw [getLatency_skip _ o hs]
    dsimp only
    exact ⟨hc, by omega, fun h => by omega⟩
  · rw [getLatency_record _ o hs, tick_record _ o hs]
    have hcap := append_cap_of_lt (p0.ticks os).series
      ⟨wrapUint64 o.startNs, wrapUint64 o.latency⟩ hl1
    have hel := append_elems (p0.ticks os).series ⟨wrapUint64 o.startNs, wrapUint64 o.latency⟩
    simp only [hcap, hel, List.length_append, List.length_singleton, hc]
    refine ⟨trivial, by omega, fun hfull => ?_⟩
    rw [if_pos (by omega)]
    simp only [latencyProbe.flush, hcap, hel, hc]
    exact ⟨trivial, trivial⟩

/-- Witness of C7 (amended) at `interval_ms = 30000` (capacity 2), one tick done and one to come. -/
theorem ticks_buffer_within_capacity_witness :
    (0 : Int) < 30000 ∧ (30000 : Int) ≤ 60000 ∧
    ∃ p0, NewLatencyProbe "peer" "http://peer/ping" 30000 "peer.series" true = some p0 ∧
      1 ≤ p0.series.cap ∧
      (p0.ticks [⟨5, 7, false⟩]).series.cap = p0.series.cap ∧
      (p0.ticks [⟨5, 7, false⟩]).series.elems.length < p0.series.cap ∧
      ((p0.ticks [⟨5, 7, false⟩]).getLatency ⟨8, 9, false⟩).1.series.cap = p0.series.cap ∧
      ((p0.ticks [⟨5, 7, false⟩]).getLatency ⟨8, 9, false⟩).1.series.elems.length
        ≤ p0.series.cap ∧
      (((p0.ticks [⟨5, 7, false⟩]).getLatency ⟨8, 9, false⟩).1.series.elems.length
          = p0.series.cap →
        ((p0.ticks [⟨5, 7, false⟩]).tick ⟨8, 9, false⟩).series = ⟨[], p0.series.cap⟩ ∧
        ((p0.ticks [⟨5, 7, false⟩]).tick ⟨8, 9, false⟩).logFile
          = (p0.ticks [⟨5, 7, false⟩]).logFile.map fun text => text ++
            (((p0.ticks [⟨5, 7, false⟩]).getLatency ⟨8, 9, false⟩).1.series.elems.map
              Sample.line).flatten) :=
  ⟨by decide, by decide,
    ticks_buffer_within_capacity "peer" "http://peer/ping" "peer.series" true 30000
      [⟨5, 7, false⟩] ⟨8, 9, false⟩ (by decide) (by decide)⟩

/-- C8: `flush` appends to the series log exactly the lines `<timestamp>TAB<latency>NEWLINE`
(both numbers in decimal) of the buffered samples, concatenated in insertion order, and leaves
an empty buffer of the same capacity; on an empty buffer the log is unchanged.  (A probe whose
file could not be opened has no log: its `flush` only empties the buffer.) -/
theorem flush_appends_lines (p : latencyProbe) :
    (p.flush.logFile = p.logFile.map fun text => text ++
      (p.series.elems.map fun s =>
        (Nat.repr s.timestamp).data ++ ['\t'] ++ (Nat.repr s.latencyNs).data ++ ['\n']).flatten) ∧
    p.flush.series.elems.length = 0 ∧
    p.flush.series.cap = p.series.cap ∧
    (p.series.elems = [] → p.flush.logFile = p.logFile) := by
  have hline : Sample.line = fun s =>
      (Nat.repr s.timestamp).data ++ ['\t'] ++ (Nat.repr s.latencyNs).data ++ ['\n'] := by
    funext s
    simp [Sample.line, Nat.repr, List.asString]
  refine ⟨?_, rfl, rfl, ?_⟩
  · rw [← hline]
    rfl
  · intro h
    cases hl : p.logFile <;> simp [latencyProbe.flush, h, hl]

/-- Witness of C8: a buffer of two samples, and an empty buffer, flushed to a log that already holds one line. -/
theorem flush_appends_lines_witness :
    (latencyProbe.flush ⟨"peer", 1000, ⟨[⟨12, 34⟩, ⟨5, 6⟩], 60⟩, "http://peer/ping", 34, 2,
        "peer.series", some "1\t2\n".data⟩).logFile = some "1\t2\n12\t34\n5\t6\n".data ∧
    (latencyProbe.flush ⟨"peer", 1000, ⟨[], 60⟩, "http://peer/ping", 34, 2,
        "peer.series", some "1\t2\n".data⟩).logFile = some "1\t2\n".data :=
  ⟨by
    rw [(flush_appends_lines ⟨"peer", 1000, ⟨[⟨12, 34⟩, ⟨5, 6⟩], 60⟩, "http://peer/ping", 34, 2,
        "peer.series", some "1\t2\n".data⟩).1]
    decide,
   (flush_appends_lines ⟨"peer", 1000, ⟨[], 60⟩, "http://peer/ping", 34, 2,
        "peer.series", some "1\t2\n".data⟩).2.2.2 rfl⟩

/-- C9: for a probe that starts with an empty buffer and an open, empty log, after any sequence
of ticks and flushes that ends with a flush, the log holds the concatenation of all flush outputs
and reading it line by line (two decimal unsigned integers separated by a tab) gives exactly the
samples appended by the ticks, in order. -/
theorem events_round_trip (p : latencyProbe) (es : List ProbeEvent)
    (hbuf : p.series.elems = []) (hlog : p.logFile = some []) :
    ∃ text, (p.events (es ++ [ProbeEvent.flush])).logFile = some text ∧
      readSeries text = some (appended p.intervalMs es) := by
  have h := events_log_and_buffer es p
  rw [hbuf, hlog] at h
  refine ⟨((appended p.intervalMs es).map Sample.line).flatten, ?_, readSeries_lines _⟩
  rw [events_append_flush]
  have hf : (p.events es).flush.logFile = (p.events es).logFile.map fun text =>
      text ++ ((p.events es).series.elems.map Sample.line).flatten := rfl
  rw [hf, h]
  simp

/-- Witness of C9: four ticks, one of them a fast error, on a buffer of capacity 2, then a flush. -/
theorem events_round_trip_witness :
    (∃ text, (latencyProbe.events
        ⟨"peer", 30000, ⟨[], 2⟩, "http://peer/ping", 0, 0, "peer.series", some []⟩
        ([ProbeEvent.tick ⟨11, 5, false⟩, ProbeEvent.tick ⟨22, 6, true⟩,
          ProbeEvent.tick ⟨33, 30000000007, true⟩, ProbeEvent.tick ⟨44, 8, false⟩]
          ++ [ProbeEvent.flush])).logFile = some text ∧
      readSeries text = some (appended 30000
        [ProbeEvent.tick ⟨11, 5, false⟩, ProbeEvent.tick ⟨22, 6, true⟩,
          ProbeEvent.tick ⟨33, 30000000007, true⟩, ProbeEvent.tick ⟨44, 8, false⟩])) ∧
    appended 30000
        [ProbeEvent.tick ⟨11, 5, false⟩, ProbeEvent.tick ⟨22, 6, true⟩,
          ProbeEvent.tick ⟨33, 30000000007, true⟩, ProbeEvent.tick ⟨44, 8, false⟩]
      = [⟨11, 5⟩, ⟨33, 30000000007⟩, ⟨44, 8⟩] ∧
    (latencyProbe.events
        ⟨"peer", 30000, ⟨[], 2⟩, "http://peer/ping", 0, 0, "peer.series", some []⟩
        ([ProbeEvent.tick ⟨11, 5, false⟩, ProbeEvent.tick ⟨22, 6, true⟩,
          ProbeEvent.tick ⟨33, 30000000007, true⟩, ProbeEvent.tick ⟨44, 8, false⟩]
          ++ [ProbeEvent.flush])).logFile
      = some "11\t5\n33\t30000000007\n44\t8\n".data :=
  ⟨events_round_trip ⟨"peer", 30000, ⟨[], 2⟩, "http://peer/ping", 0, 0, "peer.series", some []⟩
      [ProbeEvent.tick ⟨11, 5, false⟩, ProbeEvent.tick ⟨22, 6, true⟩,
        ProbeEvent.tick ⟨33, 30000000007, true⟩, ProbeEvent.tick ⟨44, 8, false⟩] rfl rfl,
    by decide!, by decide!⟩

/-! ## TCP traffic run: the byte cap -/

theorem wrapUint64_of_range (x : Int) (h1 : 0 ≤ x) (h2 : x < 2 ^ 64) :
    (wrapUint64 x : Int) = x := by
  unfold wrapUint64
  rw [Int.toNat_of_nonneg (Int.emod_nonneg _ (by norm_num))]
  omega

theorem tcp_iteration_ok (run run1 : TcpRun) (e : IterEnv)
    (hmax : 0 < run.Req.MaxBytes) (hmax64 : run.Req.MaxBytes < 2 ^ 64)
    (h0 : run.BytesSent ≤ run.Req.MaxBytes) (hw : ∀ len, (e.write len).1 ≤ len)
    (h : run.iteration e = Except.ok run1) :
    run1.Req = run.Req ∧ run1.BytesSent ≤ run.Req.MaxBytes ∧
      run.BytesSent ≤ run1.BytesSent := by
  have hd := wrapUint64_of_range ((run.Req.MaxBytes : Int) - run.BytesSent)
    (by omega) (by omega)
  have hwl := hw (min run.Req.WriteSize
    (wrapUint64 ((run.Req.MaxBytes : Int) - run.BytesSent)))
  unfold TcpRun.iteration at h
  split_ifs at h with h1 h2 h3
  simp only [if_pos hmax] at h
  cases hwr : e.write (min run.Req.WriteSize
      (wrapUint64 ((run.Req.MaxBytes : Int) - run.BytesSent))) with
  | mk nbytes err =>
    rw [hwr] at h hwl
    cases err with
    | true => simp at h
    | false =>
      simp only [Except.ok.injEq] at h
      subst h
      have hn : nbytes ≤ wrapUint64 ((run.Req.MaxBytes : Int) - run.BytesSent) :=
        le_trans hwl (Nat.min_le_right _ _)
      have hsum : run.BytesSent + nbytes ≤ run.Req.MaxBytes := by omega
      have hmod : (run.BytesSent + nbytes) % 2 ^ 64 = run.BytesSent + nbytes :=
        Nat.mod_eq_of_lt (by omega)
      simp only [hmod]
      exact ⟨trivial, hsum, by omega⟩

theorem tcp_iteration_maxBytes (run : TcpRun) (e : IterEnv)
    (h : run.iteration e = Except.error LoopExit.maxBytesReached) :
    run.Req.MaxBytes ≤ run.BytesSent := by
  unfold TcpRun.iteration at h
  by_cases h1 : run.StopReq = true
  · rw [if_pos h1] at h
    cases h
  · rw [if_neg h1] at h
    by_cases h2 : run.Req.MaxBytes > 0 ∧ run.BytesSent ≥ run.Req.MaxBytes
    · exact h2.2
    · rw [if_neg h2] at h
      by_cases h3 : run.Req.EndTime > 0 ∧ afterEndTime e.now run.Req.EndTime
      · rw [if_pos h3] at h
        cases h
      · rw [if_neg h3] at h
        simp only [] at h
        split at h <;> cases h

theorem tcp_transmit_inv (es : List RunEvent) : ∀ (run : TcpRun),
    0 < run.Req.MaxBytes → run.Req.MaxBytes < 2 ^ 64 → run.BytesSent ≤ run.Req.MaxBytes →
    (∀ e, RunEvent.iterate e ∈ es → ∀ len, (e.write len).1 ≤ len) →
    (run.transmit es).1.Req = run.Req ∧
    (run.transmit es).1.BytesSent ≤ run.Req.MaxBytes ∧
    ((run.transmit es).2 = some LoopExit.maxBytesReached →
      run.Req.MaxBytes ≤ (run.transmit es).1.BytesSent) := by
  induction es with
  | nil =>
    intro run _ _ h0 _
    exact ⟨rfl, h0, fun h => by simp [TcpRun.transmit] at h⟩
  | cons ev es ih =>
    intro run hmax hmax64 h0 hw
    have hw1 : ∀ e, RunEvent.iterate e ∈ es → ∀ len, (e.write len).1 ≤ len :=
      fun e he => hw e (List.mem_cons_of_mem _ he)
    cases ev with
    | stop => exact ih run.Stop hmax hmax64 h0 hw1
    | iterate e =>
      cases hit : run.iteration e with
      | error reason =>
        simp only [TcpRun.transmit, hit]
        refine ⟨trivial, h0, fun h => ?_⟩
        simp only [Option.some.injEq] at h
        rw [h] at hit
        exact tcp_iteration_maxBytes run e hit
      | ok run1 =>
        obtain ⟨hreq, hb, _⟩ := tcp_iteration_ok run run1 e hmax hmax64 h0
          (hw e (List.mem_cons_self _ _)) hit
        have h := ih run1 (by rw [hreq]; exact hmax) (by rw [hreq]; exact hmax64)
          (by rw [hreq]; exact hb) hw1
        rw [hreq] at h
        simp only [TcpRun.transmit, hit]
        exact h

theorem tcp_transmit_cap (run : TcpRun) (es : List RunEvent)
    (hmax : 0 < run.Req.MaxBytes) (hmax64 : run.Req.MaxBytes < 2 ^ 64)
    (hws : 0 < run.Req.WriteSize) (h0 : run.BytesSent ≤ run.Req.MaxBytes)
    (hw : ∀ e, RunEvent.iterate e ∈ es → ∀ len, (e.write len).1 ≤ len) :
    (∀ n, (run.transmit (es.take n)).1.BytesSent ≤ run.Req.MaxBytes ∧
      (wrapUint64 ((run.Req.MaxBytes : Int) - (run.transmit (es.take n)).1.BytesSent) : Int)
        = (run.Req.MaxBytes : Int) - (run.transmit (es.take n)).1.BytesSent) ∧
    ((run.transmit es).2 = some LoopExit.maxBytesReached →
      (run.Req.MaxBytes : Int) - run.Req.WriteSize + 1 ≤ (run.transmit es).1.BytesSent ∧
      (run.transmit es).1.BytesSent ≤ run.Req.MaxBytes ∧
      (run.transmit es).1.BytesSent = run.Req.MaxBytes) := by
  constructor
  · intro n
    have h := (tcp_transmit_inv (es.take n) run hmax hmax64 h0
      (fun e he => hw e (List.mem_of_mem_take he))).2.1
    exact ⟨h, wrapUint64_of_range _ (by omega) (by omega)⟩
  · intro hexit
    obtain ⟨_, hle, hge⟩ := tcp_transmit_inv es run hmax hmax64 h0 hw
    have := hge hexit
    exact ⟨by omega, hle, by omega⟩

/-! ## UDP traffic run: the byte cap -/

theorem udp_iteration_ok (run run1 : UdpRun) (e : IterEnv)
    (hmax : 0 < run.Req.MaxBytes) (hmax64 : run.Req.MaxBytes < 2 ^ 64)
    (h0 : run.BytesSent ≤ run.Req.MaxBytes) (hw : ∀ len, (e.write len).1 ≤ len)
    (h : run.iteration e = Except.ok run1) :
    run1.Req = run.Req ∧ run1.BytesSent ≤ run.Req.MaxBytes ∧
      run.BytesSent ≤ run1.BytesSent := by
  have hd := wrapUint64_of_range ((run.Req.MaxBytes : Int) - run.BytesSent)
    (by omega) (by omega)
  have hwl := hw (min run.Req.WriteSize
    (wrapUint64 ((run.Req.MaxBytes : Int) - run.BytesSent)))
  unfold UdpRun.iteration at h
  split_ifs at h with h1 h2 h3
  simp only [if_pos hmax] at h
  cases hwr : e.write (min run.Req.WriteSize
      (wrapUint64 ((run.Req.MaxBytes : Int) - run.BytesSent))) with
  | mk nbytes err =>
    rw [hwr] at h hwl
    cases err with
    | true => simp at h
    | false =>
      simp only [Except.ok.injEq] at h
      subst h
      have hn : nbytes ≤ wrapUint64 ((run.Req.MaxBytes : Int) - run.BytesSent) :=
        le_trans hwl (Nat.min_le_right _ _)
      have hsum : run.BytesSent + nbytes ≤ run.Req.MaxBytes := by omega
      have hmod : (run.BytesSent + nbytes) % 2 ^ 64 = run.BytesSent + nbytes :=
        Nat.mod_eq_of_lt (by omega)
      simp only [hmod]
      exact ⟨trivial, hsum, by omega⟩

theorem udp_iteration_maxBytes (run : UdpRun) (e : IterEnv)
    (h : run.iteration e = Except.error LoopExit.maxBytesReached) :
    run.Req.MaxBytes ≤ run.BytesSent := by
  unfold UdpRun.iteration at h
  by_cases h1 : run.StopReq = true
  · rw [if_pos h1] at h
    cases h
  · rw [if_neg h1] at h
    by_cases h2 : run.Req.MaxBytes > 0 ∧ run.BytesSent ≥ run.Req.MaxBytes
    · exact h2.2
    · rw [if_neg h2] at h
      by_cases h3 : run.Req.EndTime > 0 ∧ afterEndTime e.now run.Req.EndTime
      · rw [if_pos h3] at h
        cases h
      · rw [if_neg h3] at h
        simp only [] at h
        split at h <;> cases h

theorem udp_transmit_inv (es : List RunEvent) : ∀ (run : UdpRun),
    0 < run.Req.MaxBytes → run.Req.MaxBytes < 2 ^ 64 → run.BytesSent ≤ run.Req.MaxBytes →
    (∀ e, RunEvent.iterate e ∈ es → ∀ len, (e.write len).1 ≤ len) →
    (run.transmit es).1.Req = run.Req ∧
    (run.transmit es).1.BytesSent ≤ run.Req.MaxBytes ∧
    ((run.transmit es).2 = some LoopExit.maxBytesReached →
      run.Req.MaxBytes ≤ (run.transmit es).1.BytesSent) := by
  induction es with
  | nil =>
    intro run _ _ h0 _
    exact ⟨rfl, h0, fun h => by simp [UdpRun.transmit] at h⟩
  | cons ev es ih =>
    intro run hmax hmax64 h0 hw
    have hw1 : ∀ e, RunEvent.iterate e ∈ es → ∀ len, (e.write len).1 ≤ len :=
      fun e he => hw e (List.mem_cons_of_mem _ he)
    cases ev with
    | stop => exact ih run.Stop hmax hmax64 h0 hw1
    | iterate e =>
      cases hit : run.iteration e with
      | error reason =>
        simp only [UdpRun.transmit, hit]
        refine ⟨trivial, h0, fun h => ?_⟩
        simp only [Option.some.injEq] at h
        rw [h] at hit
        exact udp_iteration_maxBytes run e hit
      | ok run1 =>
        obtain ⟨hreq, hb, _⟩ := udp_iteration_ok run run1 e hmax hmax64 h0
          (hw e (List.mem_cons_self _ _)) hit
        have h := ih run1 (by rw [hreq]; exact hmax) (by rw [hreq]; exact hmax64)
          (by rw [hreq]; exact hb) hw1
        rw [hreq] at h
        simp only [UdpRun.transmit, hit]
        exact h

theorem udp_transmit_cap (run : UdpRun) (es : List RunEvent)
    (hmax : 0 < run.Req.MaxBytes) (hmax64 : run.Req.MaxBytes < 2 ^ 64)
    (hws : 0 < run.Req.WriteSize) (h0 : run.BytesSent ≤ run.Req.MaxBytes)
    (hw : ∀ e, RunEvent.iterate e ∈ es → ∀ len, (e.write len).1 ≤ len) :
    (∀ n, (run.transmit (es.take n)).1.BytesSent ≤ run.Req.MaxBytes ∧
      (wrapUint64 ((run.Req.MaxBytes : Int) - (run.transmit (es.take n)).1.BytesSent) : Int)
        = (run.Req.MaxBytes : Int) - (run.transmit (es.take n)).1.BytesSent) ∧
    ((run.transmit es).2 = some LoopExit.maxBytesReached →
      (run.Req.MaxBytes : Int) - run.Req.WriteSize + 1 ≤ (run.transmit es).1.BytesSent ∧
      (run.transmit es).1.BytesSent ≤ run.Req.MaxBytes ∧
      (run.transmit es).1.BytesSent = run.Req.MaxBytes) := by
  constructor
  · intro n
    have h := (udp_transmit_inv (es.take n) run hmax hmax64 h0
      (fun e he => hw e (List.mem_of_mem_take he))).2.1
    exact ⟨h, wrapUint64_of_range _ (by omega) (by omega)⟩
  · intro hexit
    obtain ⟨_, hle, hge⟩ := udp_transmit_inv es run hmax hmax64 h0 hw
    have := hge hexit
    exact ⟨by omega, hle, by omega⟩

/-! ## Traffic runs: claims -/

/-- C4: for a TCP run and for a UDP run with `MaxBytes > 0` and `WriteSize > 0` that enters the
transmit loop with `BytesSent ≤ MaxBytes` (a new run has `BytesSent = 0`), along every sequence
of `Stop()` calls and loop iterations whose writes return a byte count no larger than the length
asked: `BytesSent ≤ MaxBytes` after every event, so the `uint64` difference
`MaxBytes - BytesSent` in the write length never underflows, and when the loop is left because
the cap is reached, `MaxBytes - WriteSize + 1 ≤ BytesSent ≤ MaxBytes` (indeed
`BytesSent = MaxBytes`). -/
theorem transmit_bytes_within_cap (es : List RunEvent)
    (hw : ∀ e, RunEvent.iterate e ∈ es → ∀ len, (e.write len).1 ≤ len) :
    (∀ run : TcpRun, 0 < run.Req.MaxBytes → run.Req.MaxBytes < 2 ^ 64 →
      0 < run.Req.WriteSize → run.BytesSent ≤ run.Req.MaxBytes →
      (∀ n, (run.transmit (es.take n)).1.BytesSent ≤ run.Req.MaxBytes ∧
        (wrapUint64 ((run.Req.MaxBytes : Int) - (run.transmit (es.take n)).1.BytesSent) : Int)
          = (run.Req.MaxBytes : Int) - (run.transmit (es.take n)).1.BytesSent) ∧
      ((run.transmit es).2 = some LoopExit.maxBytesReached →
        (run.Req.MaxBytes : Int) - run.Req.WriteSize + 1 ≤ (run.transmit es).1.BytesSent ∧
        (run.transmit es).1.BytesSent ≤ run.Req.MaxBytes ∧
        (run.transmit es).1.BytesSent = run.Req.MaxBytes)) ∧
    (∀ run : UdpRun, 0 < run.Req.MaxBytes → run.Req.MaxBytes < 2 ^ 64 →
      0 < run.Req.WriteSize → run.BytesSent ≤ run.Req.MaxBytes →
      (∀ n, (run.transmit (es.take n)).1.BytesSent ≤ run.Req.MaxBytes ∧
        (wrapUint64 ((run.Req.MaxBytes : Int) - (run.transmit (es.take n)).1.BytesSent) : Int)
          = (run.Req.MaxBytes : Int) - (run.transmit (es.take n)).1.BytesSent) ∧
      ((run.transmit es).2 = some LoopExit.maxBytesReached →
        (run.Req.MaxBytes : Int) - run.Req.WriteSize + 1 ≤ (run.transmit es).1.BytesSent ∧
        (run.transmit es).1.BytesSent ≤ run.Req.MaxBytes ∧
        (run.transmit es).1.BytesSent = run.Req.MaxBytes)) :=
  ⟨fun run hmax hmax64 hws h0 => tcp_transmit_cap run es hmax hmax64 hws h0 hw,
    fun run hmax hmax64 hws h0 => udp_transmit_cap run es hmax hmax64 hws h0 hw⟩

/-- Witness of C4: `WriteSize = 1024`, `MaxBytes = 10000`, nine full writes, one short write, two more iterations. -/
theorem transmit_bytes_within_cap_witness :
    (TcpRun.transmit ⟨"srv-0", 0, ⟨"peer:4000", 10000, 1024, 0, 0, 0⟩, false, 0, 0⟩
      (List.replicate 9 (RunEvent.iterate (fullWrite 0)) ++
        [RunEvent.iterate (halfWrite 0), RunEvent.iterate (fullWrite 0),
          RunEvent.iterate (fullWrite 0)])).2 = some LoopExit.maxBytesReached ∧
    ((10000 : Nat) : Int) - (1024 : Nat) + 1 ≤
      (TcpRun.transmit ⟨"srv-0", 0, ⟨"peer:4000", 10000, 1024, 0, 0, 0⟩, false, 0, 0⟩
        (List.replicate 9 (RunEvent.iterate (fullWrite 0)) ++
          [RunEvent.iterate (halfWrite 0), RunEvent.iterate (fullWrite 0),
            RunEvent.iterate (fullWrite 0)])).1.BytesSent ∧
    (TcpRun.transmit ⟨"srv-0", 0, ⟨"peer:4000", 10000, 1024, 0, 0, 0⟩, false, 0, 0⟩
      (List.replicate 9 (RunEvent.iterate (fullWrite 0)) ++
        [RunEvent.iterate (halfWrite 0), RunEvent.iterate (fullWrite 0),
          RunEvent.iterate (fullWrite 0)])).1.BytesSent ≤ 10000 :=
  have hw : ∀ e, RunEvent.iterate e ∈
      (List.replicate 9 (RunEvent.iterate (fullWrite 0)) ++
        [RunEvent.iterate (halfWrite 0), RunEvent.iterate (fullWrite 0),
          RunEvent.iterate (fullWrite 0)]) → ∀ len, (e.write len).1 ≤ len := by
    intro e he len
    simp only [List.mem_append, List.mem_replicate, List.mem_cons, RunEvent.iterate.injEq,
      List.mem_singleton, List.not_mem_nil, or_false] at he
    rcases he with ⟨_, rfl⟩ | rfl | rfl | rfl
    · exact le_refl _
    · show (len + 1) / 2 ≤ len
      omega
    · exact le_refl _
    · exact le_refl _
  have hexit : (TcpRun.transmit ⟨"srv-0", 0, ⟨"peer:4000", 10000, 1024, 0, 0, 0⟩, false, 0, 0⟩
      (List.replicate 9 (RunEvent.iterate (fullWrite 0)) ++
        [RunEvent.iterate (halfWrite 0), RunEvent.iterate (fullWrite 0),
          RunEvent.iterate (fullWrite 0)])).2 = some LoopExit.maxBytesReached := by
    decide!
  have h := ((transmit_bytes_within_cap _ hw).1
    ⟨"srv-0", 0, ⟨"peer:4000", 10000, 1024, 0, 0, 0⟩, false, 0, 0⟩
    (by decide) (by decide) (by decide) (by decide)).2 hexit
  ⟨hexit, h.1, h.2.1⟩

/-! ## Run ids and registries -/

theorem toDigits_injective (n m : Nat) (h : Nat.toDigits 10 n = Nat.toDigits 10 m) : n = m := by
  have hn := readNat_toDigits n '\n' [] (by decide)
  have hm := readNat_toDigits m '\n' [] (by decide)
  rw [h, hm] at hn
  simp only [Option.some.injEq, Prod.mk.injEq, and_true] at hn
  exact hn.symm

theorem runIdText_injective (serverId : String) (n m : Nat)
    (h : runIdText serverId n = runIdText serverId m) : n = m := by
  have hd := congrArg String.data h
  simp only [runIdText, String.data_append, Nat.repr, List.asString, List.append_assoc] at hd
  have h1 := List.append_cancel_left hd
  have h2 := List.append_cancel_left h1
  exact toDigits_injective n m h2

theorem set_same {α : Type} (m : Registry α) (k : String) (v : α) : m.set k v k = some v := by
  simp [Registry.set]

theorem set_other {α : Type} (m : Registry α) (k k1 : String) (v : α) (h : k1 ≠ k) :
    m.set k v k1 = m k1 := by
  simp [Registry.set, h]

theorem runId_of_count (count : Nat) (h : count < 2 ^ 64) :
    wrapUint64 ((((count + 1) % 2 ^ 64 : Nat) : Int) - 1) = count := by
  unfold wrapUint64
  omega

theorem tcp_NewTcpRun_id (serverId : String) (g : TcpGlobals) (req : TcpReq)
    (h : g.tcpRunCount < 2 ^ 64) :
    (NewTcpRun serverId g req).1.Id = runIdText serverId g.tcpRunCount := by
  simp only [NewTcpRun, runId_of_count g.tcpRunCount h]

theorem tcp_NewTcpRun_runs (serverId : String) (g : TcpGlobals) (req : TcpReq) :
    (NewTcpRun serverId g req).2.tcpRuns
      = g.tcpRuns.set (NewTcpRun serverId g req).1.Id (NewTcpRun serverId g req).1 := rfl

theorem tcp_NewTcpRun_count (serverId : String) (g : TcpGlobals) (req : TcpReq)
    (h : g.tcpRunCount < 2 ^ 64 - 1) :
    (NewTcpRun serverId g req).2.tcpRunCount = g.tcpRunCount + 1 := by
  simp only [NewTcpRun]
  omega

/-- After creates from the initial state, the counter is the number of creates and every key
of the registry is the id of a smaller counter value. -/
theorem tcp_creates_keys (serverId : String) (reqs : List TcpReq) : ∀ (g : TcpGlobals),
    g.tcpRunCount + reqs.length < 2 ^ 64 →
    (∀ k, g.tcpRuns k ≠ none → ∃ n, n < g.tcpRunCount ∧ k = runIdText serverId n) →
    (tcpCreates serverId g reqs).tcpRunCount = g.tcpRunCount + reqs.length ∧
    (∀ k, (tcpCreates serverId g reqs).tcpRuns k ≠ none →
      ∃ n, n < g.tcpRunCount + reqs.length ∧ k = runIdText serverId n) := by
  induction reqs with
  | nil => intro g _ hk; exact ⟨rfl, hk⟩
  | cons req reqs ih =>
    intro g hlen hk
    simp only [List.length_cons] at hlen
    have hc := tcp_NewTcpRun_count serverId g req (by omega)
    have hid := tcp_NewTcpRun_id serverId g req (by omega)
    have h := ih (NewTcpRun serverId g req).2 (by rw [hc]; omega) (by
      intro k hne
      rw [tcp_NewTcpRun_runs, hid, hc] at *
      by_cases hkk : k = runIdText serverId g.tcpRunCount
      · exact ⟨g.tcpRunCount, by omega, hkk⟩
      · rw [set_other _ _ _ _ hkk] at hne
        obtain ⟨n, hn, e⟩ := hk k hne
        exact ⟨n, by omega, e⟩)
    rw [hc] at h
    simp only [List.length_cons, tcpCreates]
    refine ⟨by omega, fun k hne => ?_⟩
    obtain ⟨n, hn, e⟩ := h.2 k hne
    exact ⟨n, by omega, e⟩

theorem tcp_create_fresh (serverId : String) (reqs : List TcpReq) (req : TcpReq)
    (hlen : reqs.length < 2 ^ 64) :
    (tcpCreates serverId TcpGlobals.init reqs).tcpRuns
        (NewTcpRun serverId (tcpCreates serverId TcpGlobals.init reqs) req).1.Id = none ∧
    ∀ k, (tcpCreates serverId TcpGlobals.init reqs).tcpRuns k ≠ none →
      (NewTcpRun serverId (tcpCreates serverId TcpGlobals.init reqs) req).2.tcpRuns k
        = (tcpCreates serverId TcpGlobals.init reqs).tcpRuns k := by
  have h := tcp_creates_keys serverId reqs TcpGlobals.init
    (by simpa [TcpGlobals.init] using hlen)
    (by intro k hne; exact absurd rfl hne)
  simp only [TcpGlobals.init, Nat.zero_add] at h
  have hcount : (tcpCreates serverId TcpGlobals.init reqs).tcpRunCount = reqs.length := h.1
  have hid := tcp_NewTcpRun_id serverId (tcpCreates serverId TcpGlobals.init reqs) req
    (by rw [hcount]; exact hlen)
  rw [hcount] at hid
  have hfresh : (tcpCreates serverId TcpGlobals.init reqs).tcpRuns
      (runIdText serverId reqs.length) = none := by
    by_contra hne
    obtain ⟨n, hn, e⟩ := h.2 _ hne
    have := runIdText_injective serverId _ _ e
    omega
  refine ⟨by rw [hid]; exact hfresh, fun k hne => ?_⟩
  rw [tcp_NewTcpRun_runs, hid]
  apply set_other
  intro e
  rw [e] at hne
  exact hne hfresh

theorem udp_NewUdpRun_id (serverId : String) (g : UdpGlobals) (req : UdpReq)
    (h : g.udpRunCount < 2 ^ 64) :
    (NewUdpRun serverId g req).1.Id = runIdText serverId g.udpRunCount := by
  simp only [NewUdpRun, runId_of_count g.udpRunCount h]

theorem udp_NewUdpRun_runs (serverId : String) (g : UdpGlobals) (req : UdpReq) :
    (NewUdpRun serverId g req).2.udpRuns
      = g.udpRuns.set (NewUdpRun serverId g req).1.Id (NewUdpRun serverId g req).1 := rfl

theorem udp_NewUdpRun_count (serverId : String) (g : UdpGlobals) (req : UdpReq)
    (h : g.udpRunCount < 2 ^ 64 - 1) :
    (NewUdpRun serverId g req).2.udpRunCount = g.udpRunCount + 1 := by
  simp only [NewUdpRun]
  omega

/-- After creates from the initial state, the counter is the number of creates and every key
of the registry is the id of a smaller counter value. -/
theorem udp_creates_keys (serverId : String) (reqs : List UdpReq) : ∀ (g : UdpGlobals),
    g.udpRunCount + reqs.length < 2 ^ 64 →
    (∀ k, g.udpRuns k ≠ none → ∃ n, n < g.udpRunCount ∧ k = runIdText serverId n) →
    (udpCreates serverId g reqs).udpRunCount = g.udpRunCount + reqs.length ∧
    (∀ k, (udpCreates serverId g reqs).udpRuns k ≠ none →
      ∃ n, n < g.udpRunCount + reqs.length ∧ k = runIdText serverId n) := by
  induction reqs with
  | nil => intro g _ hk; exact ⟨rfl, hk⟩
  | cons req reqs ih =>
    intro g hlen hk
    simp only [List.length_cons] at hlen
    have hc := udp_NewUdpRun_count serverId g req (by omega)
    have hid := udp_NewUdpRun_id serverId g req (by omega)
    have h := ih (NewUdpRun serverId g req).2 (by rw [hc]; omega) (by
      intro k hne
      rw [udp_NewUdpRun_runs, hid, hc] at *
      by_cases hkk : k = runIdText serverId g.udpRunCount
      · exact ⟨g.udpRunCount, by omega, hkk⟩
      · rw [set_other _ _ _ _ hkk] at hne
        obtain ⟨n, hn, e⟩ := hk k hne
        exact ⟨n, by omega, e⟩)
    rw [hc] at h
    simp only [List.length_cons, udpCreates]
    refine ⟨by omega, fun k hne => ?_⟩
    obtain ⟨n, hn, e⟩ := h.2 k hne
    exact ⟨n, by omega, e⟩

theorem udp_create_fresh (serverId : String) (reqs : List UdpReq) (req : UdpReq)
    (hlen : reqs.length < 2 ^ 64) :
    (udpCreates serverId UdpGlobals.init reqs).udpRuns
        (NewUdpRun serverId (udpCreates serverId UdpGlobals.init reqs) req).1.Id = none ∧
    ∀ k, (udpCreates serverId UdpGlobals.init reqs).udpRuns k ≠ none →
      (NewUdpRun serverId (udpCreates serverId UdpGlobals.init reqs) req).2.udpRuns k
        = (udpCreates serverId UdpGlobals.init reqs).udpRuns k := by
  have h := udp_creates_keys serverId reqs UdpGlobals.init
    (by simpa [UdpGlobals.init] using hlen)
    (by intro k hne; exact absurd rfl hne)
  simp only [UdpGlobals.init, Nat.zero_add] at h
  have hcount : (udpCreates serverId UdpGlobals.init reqs).udpRunCount = reqs.length := h.1
  have hid := udp_NewUdpRun_id serverId (udpCreates serverId UdpGlobals.init reqs) req
    (by rw [hcount]; exact hlen)
  rw [hcount] at hid
  have hfresh : (udpCreates serverId UdpGlobals.init reqs).udpRuns
      (runIdText serverId reqs.length) = none := by
    by_contra hne
    obtain ⟨n, hn, e⟩ := h.2 _ hne
    have := runIdText_injective serverId _ _ e
    omega
  refine ⟨by rw [hid]; exact hfresh, fun k hne => ?_⟩
  rw [udp_NewUdpRun_runs, hid]
  apply set_other
  intro e
  rw [e] at hne
  exact hne hfresh

/-! ## Transmit loop: the tests at the top, the writes and the clock -/

theorem afterEndTime_iff (now : Int) (EndTime : Nat)
    (h : (EndTime : Int) + unixToInternal < 2 ^ 63) :
    afterEndTime now EndTime ↔ now > (EndTime : Int) * 1000000000 := by
  unfold unixToInternal at h
  have h1 : wrapInt64 (EndTime : Int) = EndTime := wrapInt64_of_range _ (by omega) (by omega)
  have h2 : wrapInt64 ((EndTime : Int) + unixToInternal) = (EndTime : Int) + unixToInternal := by
    unfold unixToInternal
    exact wrapInt64_of_range _ (by omega) (by omega)
  unfold afterEndTime
  rw [h1, h2]
  unfold unixToInternal
  omega

theorem tcp_iterate_exit (run : TcpRun) (last : Option Int) (e : IterEnv)
    (h : run.StopReq = true ∨ (run.Req.MaxBytes > 0 ∧ run.BytesSent ≥ run.Req.MaxBytes) ∨
      (run.Req.EndTime > 0 ∧ afterEndTime e.now run.Req.EndTime)) :
    ∃ reason, run.iterate last e = ([], Except.error reason) ∧
      reason ≠ LoopExit.sendError := by
  unfold TcpRun.iterate
  by_cases h1 : run.StopReq = true
  · exact ⟨_, by rw [if_pos h1], by decide⟩
  · by_cases h2 : run.Req.MaxBytes > 0 ∧ run.BytesSent ≥ run.Req.MaxBytes
    · exact ⟨_, by rw [if_neg h1, if_pos h2], by decide⟩
    · have h3 : run.Req.EndTime > 0 ∧ afterEndTime e.now run.Req.EndTime := by tauto
      exact ⟨_, by rw [if_neg h1, if_neg h2, if_pos h3], by decide⟩

theorem tcp_iterate_write (run : TcpRun) (last : Option Int) (e : IterEnv)
    (h : ¬ (run.StopReq = true ∨ (run.Req.MaxBytes > 0 ∧ run.BytesSent ≥ run.Req.MaxBytes) ∨
      (run.Req.EndTime > 0 ∧ afterEndTime e.now run.Req.EndTime))) :
    (run.iterate last e).1 =
        [⟨e.now,
          if run.Req.WriteIntervalMs > 0 then
            pacingSleep run.Req.WriteIntervalMs last e.paceTime
          else 0,
          e.sendTime,
          if run.Req.MaxBytes > 0 then
            min run.Req.WriteSize (wrapUint64 ((run.Req.MaxBytes : Int) - run.BytesSent))
          else run.Req.WriteSize⟩] ∧
    ((run.iterate last e).2 = Except.error LoopExit.sendError ∨
      ∃ run1, (run.iterate last e).2 = Except.ok run1 ∧ run1.Req = run.Req ∧
        run1.StopReq = run.StopReq ∧ run1.TrafficStartTime = run.TrafficStartTime) := by
  have h1 : ¬ run.StopReq = true := by tauto
  have h2 : ¬ (run.Req.MaxBytes > 0 ∧ run.BytesSent ≥ run.Req.MaxBytes) := by tauto
  have h3 : ¬ (run.Req.EndTime > 0 ∧ afterEndTime e.now run.Req.EndTime) := by tauto
  unfold TcpRun.iterate
  rw [if_neg h1, if_neg h2, if_neg h3]
  simp only []
  split
  · exact ⟨rfl, Or.inl rfl⟩
  · exact ⟨rfl, Or.inr ⟨_, rfl, rfl, rfl, rfl⟩⟩

theorem tcp_loop_exit (run : TcpRun) (last : Option Int) (e : IterEnv) (es : List RunEvent)
    (reason : LoopExit) (h : run.iterate last e = ([], Except.error reason)) :
    run.loop last (RunEvent.iterate e :: es) = ([], run, some reason) := by
  simp only [TcpRun.loop, h]

/-- Along the loop the request and `TrafficStartTime` stay as they are, every write follows an
end-time test that did not fire, and after an exit by the end-time test the clock has passed a
reading for which the test fired. -/
theorem tcp_loop_clock (es : List RunEvent) : ∀ (run : TcpRun) (last : Option Int),
    (run.loop last es).2.1.Req = run.Req ∧
    (run.loop last es).2.1.TrafficStartTime = run.TrafficStartTime ∧
    (∀ sent ∈ (run.loop last es).1, run.Req.EndTime > 0 →
      ¬ afterEndTime sent.checkTime run.Req.EndTime) ∧
    (∀ t tEnd, clockNonDecreasing t es tEnd →
      (∀ sent ∈ (run.loop last es).1, t ≤ sent.checkTime ∧ sent.checkTime ≤ sent.sendTime ∧
        sent.sendTime ≤ tEnd) ∧
      ((run.loop last es).2.2 = some LoopExit.timeOver →
        ∃ now, afterEndTime now run.Req.EndTime ∧ now ≤ tEnd)) := by
  induction es with
  | nil =>
    intro run last
    refine ⟨rfl, rfl, ?_, ?_⟩
    · intro sent hs
      simp [TcpRun.loop] at hs
    · intro t tEnd _
      exact ⟨fun sent hs => by simp [TcpRun.loop] at hs, fun h => by simp [TcpRun.loop] at h⟩
  | cons ev es ih =>
    intro run last
    cases ev with
    | stop => exact ih run.Stop last
    | iterate e =>
      have hmono : ∀ (es1 : List RunEvent) (t tEnd : Int),
          clockNonDecreasing t es1 tEnd → t ≤ tEnd := by
        intro es1
        induction es1 with
        | nil => intro t tEnd h; exact h
        | cons ev1 es1 ih1 =>
          intro t tEnd h
          cases ev1 with
          | stop => exact ih1 t tEnd h
          | iterate e1 =>
            obtain ⟨a, b, c, d⟩ := h
            have := ih1 e1.sendTime tEnd d
            omega
      by_cases hx : run.StopReq = true ∨
          (run.Req.MaxBytes > 0 ∧ run.BytesSent ≥ run.Req.MaxBytes) ∨
          (run.Req.EndTime > 0 ∧ afterEndTime e.now run.Req.EndTime)
      · obtain ⟨reason, hit, _⟩ := tcp_iterate_exit run last e hx
        rw [tcp_loop_exit run last e es reason hit]
        refine ⟨rfl, rfl, fun sent hs => by simp at hs, fun t tEnd hc => ?_⟩
        refine ⟨fun sent hs => by simp at hs, fun hr => ?_⟩
        simp only [Option.some.injEq] at hr
        subst hr
        obtain ⟨a, b, c, d⟩ := hc
        have hle := hmono es e.sendTime tEnd d
        unfold TcpRun.iterate at hit
        by_cases h1 : run.StopReq = true
        · rw [if_pos h1] at hit
          simp at hit
        · rw [if_neg h1] at hit
          by_cases h2 : run.Req.MaxBytes > 0 ∧ run.BytesSent ≥ run.Req.MaxBytes
          · rw [if_pos h2] at hit
            simp at hit
          · have h3 : run.Req.EndTime > 0 ∧ afterEndTime e.now run.Req.EndTime := by tauto
            exact ⟨e.now, h3.2, by omega⟩
      · obtain ⟨hsent, hres⟩ := tcp_iterate_write run last e hx
        have hnot : run.Req.EndTime > 0 → ¬ afterEndTime e.now run.Req.EndTime := by tauto
        rcases hres with herr | ⟨run1, hok, hreq, _, hstart⟩
        · have hl : run.loop last (RunEvent.iterate e :: es)
              = ((run.iterate last e).1, run, some LoopExit.sendError) := by
            cases hp : run.iterate last e with
            | mk sends res =>
              rw [hp] at herr
              simp only at herr
              subst herr
              simp only [TcpRun.loop, hp]
          rw [hl, hsent]
          refine ⟨rfl, rfl, ?_, fun t tEnd hc => ⟨?_, fun hr => by simp at hr⟩⟩
          · intro sent hs hpos
            simp only [List.mem_singleton] at hs
            subst hs
            exact hnot hpos
          · intro sent hs
            simp only [List.mem_singleton] at hs
            subst hs
            obtain ⟨a, b, c, d⟩ := hc
            have hle := hmono es e.sendTime tEnd d
            exact ⟨a, by show e.now ≤ e.sendTime; omega, hle⟩
        · have hl : run.loop last (RunEvent.iterate e :: es)
              = ((run.iterate last e).1 ++ (run1.loop (some e.sendTime) es).1,
                  (run1.loop (some e.sendTime) es).2) := by
            cases hp : run.iterate last e with
            | mk sends res =>
              rw [hp] at hok
              simp only at hok
              subst hok
              simp only [TcpRun.loop, hp]
          obtain ⟨i1, i2, i3, i4⟩ := ih run1 (some e.sendTime)
          rw [hl, hsent]
          rw [hreq] at i1 i3 i4
          refine ⟨i1, by rw [i2, hstart], ?_, fun t tEnd hc => ?_⟩
          · intro sent hs hpos
            simp only [List.singleton_append, List.mem_cons] at hs
            rcases hs with hs | hs
            · subst hs
              exact hnot hpos
            · exact i3 sent hs hpos
          · obtain ⟨a, b, c, d⟩ := hc
            obtain ⟨j1, j2⟩ := i4 e.sendTime tEnd d
            have hle := hmono es e.sendTime tEnd d
            refine ⟨?_, j2⟩
            intro sent hs
            simp only [List.singleton_append, List.mem_cons] at hs
            rcases hs with hs | hs
            · subst hs
              exact ⟨a, by show e.now ≤ e.sendTime; omega, hle⟩
            · have := j1 sent hs
              omega

theorem udp_iterate_exit (run : UdpRun) (last : Option Int) (e : IterEnv)
    (h : run.StopReq = true ∨ (run.Req.MaxBytes > 0 ∧ run.BytesSent ≥ run.Req.MaxBytes) ∨
      (run.Req.EndTime > 0 ∧ afterEndTime e.now run.Req.EndTime)) :
    ∃ reason, run.iterate last e = ([], Except.error reason) ∧
      reason ≠ LoopExit.sendError := by
  unfold UdpRun.iterate
  by_cases h1 : run.StopReq = true
  · exact ⟨_, by rw [if_pos h1], by decide⟩
  · by_cases h2 : run.Req.MaxBytes > 0 ∧ run.BytesSent ≥ run.Req.MaxBytes
    · exact ⟨_, by rw [if_neg h1, if_pos h2], by decide⟩
    · have h3 : run.Req.EndTime > 0 ∧ afterEndTime e.now run.Req.EndTime := by tauto
      exact ⟨_, by rw [if_neg h1, if_neg h2, if_pos h3], by decide⟩

theorem udp_iterate_write (run : UdpRun) (last : Option Int) (e : IterEnv)
    (h : ¬ (run.StopReq = true ∨ (run.Req.MaxBytes > 0 ∧ run.BytesSent ≥ run.Req.MaxBytes) ∨
      (run.Req.EndTime > 0 ∧ afterEndTime e.now run.Req.EndTime))) :
    (run.iterate last e).1 =
        [⟨e.now,
          if run.Req.WriteIntervalMs > 0 then
            pacingSleep run.Req.WriteIntervalMs last e.paceTime
          else 0,
          e.sendTime,
          if run.Req.MaxBytes > 0 then
            min run.Req.WriteSize (wrapUint64 ((run.Req.MaxBytes : Int) - run.BytesSent))
          else run.Req.WriteSize⟩] ∧
    ((run.iterate last e).2 = Except.error LoopExit.sendError ∨
      ∃ run1, (run.iterate last e).2 = Except.ok run1 ∧ run1.Req = run.Req ∧
        run1.StopReq = run.StopReq ∧ run1.TrafficStartTime = run.TrafficStartTime) := by
  have h1 : ¬ run.StopReq = true := by tauto
  have h2 : ¬ (run.Req.MaxBytes > 0 ∧ run.BytesSent ≥ run.Req.MaxBytes) := by tauto
  have h3 : ¬ (run.Req.EndTime > 0 ∧ afterEndTime e.now run.Req.EndTime) := by tauto
  unfold UdpRun.iterate
  rw [if_neg h1, if_neg h2, if_neg h3]
  simp only []
  split
  · exact ⟨rfl, Or.inl rfl⟩
  · exact ⟨rfl, Or.inr ⟨_, rfl, rfl, rfl, rfl⟩⟩

theorem udp_loop_exit (run : UdpRun) (last : Option Int) (e : IterEnv) (es : List RunEvent)
    (reason : LoopExit) (h : run.iterate last e = ([], Except.error reason)) :
    run.loop last (RunEvent.iterate e :: es) = ([], run, some reason) := by
  simp only [UdpRun.loop, h]

/-- Along the loop the request and `TrafficStartTime` stay as they are, every write follows an
end-time test that did not fire, and after an exit by the end-time test the clock has passed a
reading for which the test fired. -/
theorem udp_loop_clock (es : List RunEvent) : ∀ (run : UdpRun) (last : Option Int),
    (run.loop last es).2.1.Req = run.Req ∧
    (run.loop last es).2.1.TrafficStartTime = run.TrafficStartTime ∧
    (∀ sent ∈ (run.loop last es).1, run.Req.EndTime > 0 →
      ¬ afterEndTime sent.checkTime run.Req.EndTime) ∧
    (∀ t tEnd, clockNonDecreasing t es tEnd →
      (∀ sent ∈ (run.loop last es).1, t ≤ sent.checkTime ∧ sent.checkTime ≤ sent.sendTime ∧
        sent.sendTime ≤ tEnd) ∧
      ((run.loop last es).2.2 = some LoopExit.timeOver →
        ∃ now, afterEndTime now run.Req.EndTime ∧ now ≤ tEnd)) := by
  induction es with
  | nil =>
    intro run last
    refine ⟨rfl, rfl, ?_, ?_⟩
    · intro sent hs
      simp [UdpRun.loop] at hs
    · intro t tEnd _
      exact ⟨fun sent hs => by simp [UdpRun.loop] at hs, fun h => by simp [UdpRun.loop] at h⟩
  | cons ev es ih =>
    intro run last
    cases ev with
    | stop => exact ih run.Stop last
    | iterate e =>
      have hmono : ∀ (es1 : List RunEvent) (t tEnd : Int),
          clockNonDecreasing t es1 tEnd → t ≤ tEnd := by
        intro es1
        induction es1 with
        | nil => intro t tEnd h; exact h
        | cons ev1 es1 ih1 =>
          intro t tEnd h
          cases ev1 with
          | stop => exact ih1 t tEnd h
          | iterate e1 =>
            obtain ⟨a, b, c, d⟩ := h
            have := ih1 e1.sendTime tEnd d
            omega
      by_cases hx : run.StopReq = true ∨
          (run.Req.MaxBytes > 0 ∧ run.BytesSent ≥ run.Req.MaxBytes) ∨
          (run.Req.EndTime > 0 ∧ afterEndTime e.now run.Req.EndTime)
      · obtain ⟨reason, hit, _⟩ := udp_iterate_exit run last e hx
        rw [udp_loop_exit run last e es reason hit]
        refine ⟨rfl, rfl, fun sent hs => by simp at hs, fun t tEnd hc => ?_⟩
        refine ⟨fun sent hs => by simp at hs, fun hr => ?_⟩
        simp only [Option.some.injEq] at hr
        subst hr
        obtain ⟨a, b, c, d⟩ := hc
        have hle := hmono es e.sendTime tEnd d
        unfold UdpRun.iterate at hit
        by_cases h1 : run.StopReq = true
        · rw [if_pos h1] at hit
          simp at hit
        · rw [if_neg h1] at hit
          by_cases h2 : run.Req.MaxBytes > 0 ∧ run.BytesSent ≥ run.Req.MaxBytes
          · rw [if_pos h2] at hit
            simp at hit
          · have h3 : run.Req.EndTime > 0 ∧ afterEndTime e.now run.Req.EndTime := by tauto
            exact ⟨e.now, h3.2, by omega⟩
      · obtain ⟨hsent, hres⟩ := udp_iterate_write run last e hx
        have hnot : run.Req.EndTime > 0 → ¬ afterEndTime e.now run.Req.EndTime := by tauto
        rcases hres with herr | ⟨run1, hok, hreq, _, hstart⟩
        · have hl : run.loop last (RunEvent.iterate e :: es)
              = ((run.iterate last e).1, run, some LoopExit.sendError) := by
            cases hp : run.iterate last e with
            | mk sends res =>
              rw [hp] at herr
              simp only at herr
              subst herr
              simp only [UdpRun.loop, hp]
          rw [hl, hsent]
          refine ⟨rfl, rfl, ?_, fun t tEnd hc => ⟨?_, fun hr => by simp at hr⟩⟩
          · intro sent hs hpos
            simp only [List.mem_singleton] at hs
            subst hs
            exact hnot hpos
          · intro sent hs
            simp only [List.mem_singleton] at hs
            subst hs
            obtain ⟨a, b, c, d⟩ := hc
            have hle := hmono es e.sendTime tEnd d
            exact ⟨a, by show e.now ≤ e.sendTime; omega, hle⟩
        · have hl : run.loop last (RunEvent.iterate e :: es)
              = ((run.iterate last e).1 ++ (run1.loop (some e.sendTime) es).1,
                  (run1.loop (some e.sendTime) es).2) := by
            cases hp : run.iterate last e with
            | mk sends res =>
              rw [hp] at hok
              simp only at hok
              subst hok
              simp only [UdpRun.loop, hp]
          obtain ⟨i1, i2, i3, i4⟩ := ih run1 (some e.sendTime)
          rw [hl, hsent]
          rw [hreq] at i1 i3 i4
          refine ⟨i1, by rw [i2, hstart], ?_, fun t tEnd hc => ?_⟩
          · intro sent hs hpos
            simp only [List.singleton_append, List.mem_cons] at hs
            rcases hs with hs | hs
            · subst hs
              exact hnot hpos
            · exact i3 sent hs hpos
          · obtain ⟨a, b, c, d⟩ := hc
            obtain ⟨j1, j2⟩ := i4 e.sendTime tEnd d
            have hle := hmono es e.sendTime tEnd d
            refine ⟨?_, j2⟩
            intro sent hs
            simp only [List.singleton_append, List.mem_cons] at hs
            rcases hs with hs | hs
            · subst hs
              exact ⟨a, by show e.now ≤ e.sendTime; omega, hle⟩
            · have := j1 sent hs
              omega

/-! ## `Process`: the deadline -/

theorem tcp_process_deadline (run : TcpRun) (env : ProcessEnv)
    (hend : (run.Req.EndTime : Int) + unixToInternal < 2 ^ 63)
    (hclock : clockNonDecreasing env.startClock env.events env.endClock)
    (hfit : env.endClock < 2 ^ 63) :
    (∀ sent ∈ (run.Process env).sends, run.Req.EndTime > 0 →
      sent.checkTime ≤ (run.Req.EndTime : Int) * 1000000000 ∧
      sent.checkTime ≤ sent.sendTime) ∧
    ((run.Process env).exit = some LoopExit.timeOver →
      (run.Process env).run.TrafficEndTime / 1000000000 ≥ (run.Req.EndTime : Int)) := by
  unfold TcpRun.Process
  by_cases hd : env.dialed = true
  · rw [if_pos hd]
    obtain ⟨l1, _, l3, l4⟩ := tcp_loop_clock env.events
      { run with TrafficStartTime := wrapInt64 env.startClock } none
    obtain ⟨m1, m2⟩ := l4 env.startClock env.endClock hclock
    cases hl : TcpRun.loop { run with TrafficStartTime := wrapInt64 env.startClock } none
        env.events with
    | mk sends rest =>
      cases rest with
      | mk run1 exit =>
        rw [hl] at l3 m1 m2
        simp only at l3 m1 m2
        have hsends : ∀ sent ∈ sends, run.Req.EndTime > 0 →
            sent.checkTime ≤ (run.Req.EndTime : Int) * 1000000000 ∧
            sent.checkTime ≤ sent.sendTime := by
          intro sent hs hpos
          have h1 := l3 sent hs hpos
          rw [afterEndTime_iff _ _ hend] at h1
          exact ⟨by omega, (m1 sent hs).2.1⟩
        cases exit with
        | none => exact ⟨hsends, fun h => by simp at h⟩
        | some reason =>
          refine ⟨hsends, fun h => ?_⟩
          simp only [Option.some.injEq] at h
          subst h
          obtain ⟨now, hnow, hle⟩ := m2 rfl
          rw [afterEndTime_iff _ _ hend] at hnow
          have hw : wrapInt64 env.endClock = env.endClock :=
            wrapInt64_of_range _ (by omega) hfit
          show wrapInt64 env.endClock / 1000000000 ≥ (run.Req.EndTime : Int)
          rw [hw]
          omega
  · rw [if_neg hd]
    exact ⟨fun sent hs => by simp at hs, fun h => by simp at h⟩

theorem udp_process_deadline (run : UdpRun) (env : ProcessEnv)
    (hend : (run.Req.EndTime : Int) + unixToInternal < 2 ^ 63)
    (hclock : clockNonDecreasing env.startClock env.events env.endClock)
    (hfit : env.endClock < 2 ^ 63) :
    (∀ sent ∈ (run.Process env).sends, run.Req.EndTime > 0 →
      sent.checkTime ≤ (run.Req.EndTime : Int) * 1000000000 ∧
      sent.checkTime ≤ sent.sendTime) ∧
    ((run.Process env).exit = some LoopExit.timeOver →
      (run.Process env).run.TrafficEndTime / 1000000000 ≥ (run.Req.EndTime : Int)) := by
  unfold UdpRun.Process
  by_cases hd : env.dialed = true
  · rw [if_pos hd]
    obtain ⟨l1, _, l3, l4⟩ := udp_loop_clock env.events
      { run with TrafficStartTime := wrapInt64 env.startClock } none
    obtain ⟨m1, m2⟩ := l4 env.startClock env.endClock hclock
    cases hl : UdpRun.loop { run with TrafficStartTime := wrapInt64 env.startClock } none
        env.events with
    | mk sends rest =>
      cases rest with
      | mk run1 exit =>
        rw [hl] at l3 m1 m2
        simp only at l3 m1 m2
        have hsends : ∀ sent ∈ sends, run.Req.EndTime > 0 →
            sent.checkTime ≤ (run.Req.EndTime : Int) * 1000000000 ∧
            sent.checkTime ≤ sent.sendTime := by
          intro sent hs hpos
          have h1 := l3 sent hs hpos
          rw [afterEndTime_iff _ _ hend] at h1
          exact ⟨by omega, (m1 sent hs).2.1⟩
        cases exit with
        | none => exact ⟨hsends, fun h => by simp at h⟩
        | some reason =>
          refine ⟨hsends, fun h => ?_⟩
          simp only [Option.some.injEq] at h
          subst h
          obtain ⟨now, hnow, hle⟩ := m2 rfl
          rw [afterEndTime_iff _ _ hend] at hnow
          have hw : wrapInt64 env.endClock = env.endClock :=
            wrapInt64_of_range _ (by omega) hfit
          show wrapInt64 env.endClock / 1000000000 ≥ (run.Req.EndTime : Int)
          rw [hw]
          omega
  · rw [if_neg hd]
    exact ⟨fun sent hs => by simp at hs, fun h => by simp at h⟩

/-! ## The loop with its writes and the loop of the byte cap are the same loop -/

theorem tcp_iterate_state (run : TcpRun) (last : Option Int) (e : IterEnv) :
    (run.iterate last e).2 = run.iteration e := by
  unfold TcpRun.iterate TcpRun.iteration
  by_cases h1 : run.StopReq = true
  · rw [if_pos h1, if_pos h1]
  · rw [if_neg h1, if_neg h1]
    by_cases h2 : run.Req.MaxBytes > 0 ∧ run.BytesSent ≥ run.Req.MaxBytes
    · rw [if_pos h2, if_pos h2]
    · rw [if_neg h2, if_neg h2]
      by_cases h3 : run.Req.EndTime > 0 ∧ afterEndTime e.now run.Req.EndTime
      · rw [if_pos h3, if_pos h3]
      · rw [if_neg h3, if_neg h3]
        simp only []
        split <;> rename_i hw <;> simp only [hw]

theorem tcp_loop_state (es : List RunEvent) : ∀ (run : TcpRun) (last : Option Int),
    (run.loop last es).2 = run.transmit es := by
  induction es with
  | nil => intro run last; rfl
  | cons ev es ih =>
    intro run last
    cases ev with
    | stop => exact ih run.Stop last
    | iterate e =>
      have hs := tcp_iterate_state run last e
      cases hp : run.iterate last e with
      | mk sends res =>
        rw [hp] at hs
        simp only at hs
        cases res with
        | error reason =>
          simp only [TcpRun.loop, TcpRun.transmit, hp, ← hs]
        | ok run1 =>
          simp only [TcpRun.loop, TcpRun.transmit, hp, ← hs]
          exact ih run1 (some e.sendTime)

theorem udp_iterate_state (run : UdpRun) (last : Option Int) (e : IterEnv) :
    (run.iterate last e).2 = run.iteration e := by
  unfold UdpRun.iterate UdpRun.iteration
  by_cases h1 : run.StopReq = true
  · rw [if_pos h1, if_pos h1]
  · rw [if_neg h1, if_neg h1]
    by_cases h2 : run.Req.MaxBytes > 0 ∧ run.BytesSent ≥ run.Req.MaxBytes
    · rw [if_pos h2, if_pos h2]
    · rw [if_neg h2, if_neg h2]
      by_cases h3 : run.Req.EndTime > 0 ∧ afterEndTime e.now run.Req.EndTime
      · rw [if_pos h3, if_pos h3]
      · rw [if_neg h3, if_neg h3]
        simp only []
        split <;> rename_i hw <;> simp only [hw]

theorem udp_loop_state (es : List RunEvent) : ∀ (run : UdpRun) (last : Option Int),
    (run.loop last es).2 = run.transmit es := by
  induction es with
  | nil => intro run last; rfl
  | cons ev es ih =>
    intro run last
    cases ev with
    | stop => exact ih run.Stop last
    | iterate e =>
      have hs := udp_iterate_state run last e
      cases hp : run.iterate last e with
      | mk sends res =>
        rw [hp] at hs
        simp only at hs
        cases res with
        | error reason =>
          simp only [UdpRun.loop, UdpRun.transmit, hp, ← hs]
        | ok run1 =>
          simp only [UdpRun.loop, UdpRun.transmit, hp, ← hs]
          exact ih run1 (some e.sendTime)

/-! ## Traffic runs and registries: claims -/

/-- C11: for every request and every value of the run counter below the largest `uint64`,
`NewTcpRun` (and `NewUdpRun` likewise) returns a run whose id is `serverId`, a dash and the
decimal value of the counter before the call, increases the counter by exactly 1, stores the
request with `WriteSize` set to 1024 when it was 0 and unchanged otherwise, starts with
`BytesSent = 0`, `StopReq = false` and both traffic times 0, and leaves a registry that maps the
new id to that run and every other key as before. -/
theorem NewRun_id_counter_registry :
    (∀ (serverId : String) (g : TcpGlobals) (req : TcpReq), g.tcpRunCount < 2 ^ 64 - 1 →
      (NewTcpRun serverId g req).1.Id = serverId ++ "-" ++ Nat.repr g.tcpRunCount ∧
      (NewTcpRun serverId g req).2.tcpRunCount = g.tcpRunCount + 1 ∧
      (NewTcpRun serverId g req).1.Req
        = ⟨req.Target, req.MaxBytes, if req.WriteSize = 0 then 1024 else req.WriteSize,
            req.WriteIntervalMs, req.StartTime, req.EndTime⟩ ∧
      (NewTcpRun serverId g req).1.BytesSent = 0 ∧
      (NewTcpRun serverId g req).1.StopReq = false ∧
      (NewTcpRun serverId g req).1.TrafficStartTime = 0 ∧
      (NewTcpRun serverId g req).1.TrafficEndTime = 0 ∧
      (NewTcpRun serverId g req).2.tcpRuns (NewTcpRun serverId g req).1.Id
        = some (NewTcpRun serverId g req).1 ∧
      ∀ k, k ≠ (NewTcpRun serverId g req).1.Id →
        (NewTcpRun serverId g req).2.tcpRuns k = g.tcpRuns k) ∧
    (∀ (serverId : String) (g : UdpGlobals) (req : UdpReq), g.udpRunCount < 2 ^ 64 - 1 →
      (NewUdpRun serverId g req).1.Id = serverId ++ "-" ++ Nat.repr g.udpRunCount ∧
      (NewUdpRun serverId g req).2.udpRunCount = g.udpRunCount + 1 ∧
      (NewUdpRun serverId g req).1.Req
        = ⟨req.Target, req.MaxBytes, if req.WriteSize = 0 then 1024 else req.WriteSize,
            req.WriteIntervalMs, req.StartTime, req.EndTime⟩ ∧
      (NewUdpRun serverId g req).1.BytesSent = 0 ∧
      (NewUdpRun serverId g req).1.StopReq = false ∧
      (NewUdpRun serverId g req).1.TrafficStartTime = 0 ∧
      (NewUdpRun serverId g req).1.TrafficEndTime = 0 ∧
      (NewUdpRun serverId g req).2.udpRuns (NewUdpRun serverId g req).1.Id
        = some (NewUdpRun serverId g req).1 ∧
      ∀ k, k ≠ (NewUdpRun serverId g req).1.Id →
        (NewUdpRun serverId g req).2.udpRuns k = g.udpRuns k) := by
  constructor
  · intro serverId g req h
    refine ⟨tcp_NewTcpRun_id serverId g req (by omega),
      tcp_NewTcpRun_count serverId g req h, ?_, rfl, rfl, rfl, rfl, ?_, ?_⟩
    · simp only [NewTcpRun]
      split_ifs <;> rfl
    · rw [tcp_NewTcpRun_runs]
      exact set_same _ _ _
    · intro k hk
      rw [tcp_NewTcpRun_runs]
      exact set_other _ _ _ _ hk
  · intro serverId g req h
    refine ⟨udp_NewUdpRun_id serverId g req (by omega),
      udp_NewUdpRun_count serverId g req h, ?_, rfl, rfl, rfl, rfl, ?_, ?_⟩
    · simp only [NewUdpRun]
      split_ifs <;> rfl
    · rw [udp_NewUdpRun_runs]
      exact set_same _ _ _
    · intro k hk
      rw [udp_NewUdpRun_runs]
      exact set_other _ _ _ _ hk

/-- Witness of C11: the first TCP run of the server `srv`, from a request without a write
size. -/
theorem NewRun_id_counter_registry_witness :
    TcpGlobals.init.tcpRunCount < 2 ^ 64 - 1 ∧
    (NewTcpRun "srv" TcpGlobals.init ⟨"peer:4000", 10000, 0, 0, 0, 0⟩).1
      = ⟨"srv-0", 0, ⟨"peer:4000", 10000, 1024, 0, 0, 0⟩, false, 0, 0⟩ ∧
    (NewTcpRun "srv" TcpGlobals.init ⟨"peer:4000", 10000, 0, 0, 0, 0⟩).2.tcpRunCount
      = TcpGlobals.init.tcpRunCount + 1 ∧
    (NewTcpRun "srv" TcpGlobals.init ⟨"peer:4000", 10000, 0, 0, 0, 0⟩).2.tcpRuns
        (NewTcpRun "srv" TcpGlobals.init ⟨"peer:4000", 10000, 0, 0, 0, 0⟩).1.Id
      = some (NewTcpRun "srv" TcpGlobals.init ⟨"peer:4000", 10000, 0, 0, 0, 0⟩).1 :=
  ⟨by decide, by decide!,
    (NewRun_id_counter_registry.1 "srv" TcpGlobals.init ⟨"peer:4000", 10000, 0, 0, 0, 0⟩
      (by decide)).2.1,
    (NewRun_id_counter_registry.1 "srv" TcpGlobals.init ⟨"peer:4000", 10000, 0, 0, 0, 0⟩
      (by decide)).2.2.2.2.2.2.2.1⟩

/-- C14: a `latency/new` request whose id is already a key of `probes` leaves the map as it is,
starts no probe and answers that the probe already exists; and after any sequence of fewer than
`2^64` `NewTcpRun` calls (`NewUdpRun` likewise) from the initial state under one `serverId`, a
further create gets an id that is no key of the registry and leaves every existing entry as it
is. -/
theorem create_keeps_existing_entries :
    (∀ (probes : Registry latencyProbe) (defaultIntervalMs : Int)
        (request : LatencyNewRequest) (logFilePath : String) (opened : Bool),
      (probes request.Id).isSome = true →
      (LatencyNewHandler probes defaultIntervalMs request logFilePath opened).probes = probes ∧
      (LatencyNewHandler probes defaultIntervalMs request logFilePath opened).started = none ∧
      (LatencyNewHandler probes defaultIntervalMs request logFilePath opened).body
        = "Latency probe already exists for ID \x27" ++ request.Id ++ "\x27") ∧
    (∀ (serverId : String) (reqs : List TcpReq) (req : TcpReq), reqs.length < 2 ^ 64 →
      (tcpCreates serverId TcpGlobals.init reqs).tcpRuns
          (NewTcpRun serverId (tcpCreates serverId TcpGlobals.init reqs) req).1.Id = none ∧
      ∀ k, (tcpCreates serverId TcpGlobals.init reqs).tcpRuns k ≠ none →
        (NewTcpRun serverId (tcpCreates serverId TcpGlobals.init reqs) req).2.tcpRuns k
          = (tcpCreates serverId TcpGlobals.init reqs).tcpRuns k) ∧
    (∀ (serverId : String) (reqs : List UdpReq) (req : UdpReq), reqs.length < 2 ^ 64 →
      (udpCreates serverId UdpGlobals.init reqs).udpRuns
          (NewUdpRun serverId (udpCreates serverId UdpGlobals.init reqs) req).1.Id = none ∧
      ∀ k, (udpCreates serverId UdpGlobals.init reqs).udpRuns k ≠ none →
        (NewUdpRun serverId (udpCreates serverId UdpGlobals.init reqs) req).2.udpRuns k
          = (udpCreates serverId UdpGlobals.init reqs).udpRuns k) := by
  refine ⟨?_, tcp_create_fresh, udp_create_fresh⟩
  intro probes defaultIntervalMs request logFilePath opened h
  simp only [LatencyNewHandler, h, if_true]
  exact ⟨trivial, trivial, trivial⟩

/-- Witness of C14: a second `latency/new` for the id `peer`, and a third TCP create on the
server `srv`. -/
theorem create_keeps_existing_entries_witness :
    (LatencyNewHandler
        (Registry.set Registry.empty "peer"
          ⟨"peer", 1000, ⟨[], 60⟩, "http://peer/ping", 0, 0, "peer.series", some []⟩)
        1000 ⟨"peer", "http://other/ping", 500⟩ "peer.series" true).body
      = "Latency probe already exists for ID \x27peer\x27" ∧
    (LatencyNewHandler
        (Registry.set Registry.empty "peer"
          ⟨"peer", 1000, ⟨[], 60⟩, "http://peer/ping", 0, 0, "peer.series", some []⟩)
        1000 ⟨"peer", "http://other/ping", 500⟩ "peer.series" true).probes "peer"
      = some ⟨"peer", 1000, ⟨[], 60⟩, "http://peer/ping", 0, 0, "peer.series", some []⟩ ∧
    (tcpCreates "srv" TcpGlobals.init
        [⟨"peer:4000", 0, 0, 0, 0, 0⟩, ⟨"peer:4000", 5, 7, 0, 0, 0⟩]).tcpRuns
      (NewTcpRun "srv" (tcpCreates "srv" TcpGlobals.init
        [⟨"peer:4000", 0, 0, 0, 0, 0⟩, ⟨"peer:4000", 5, 7, 0, 0, 0⟩])
        ⟨"peer:4000", 0, 0, 0, 0, 0⟩).1.Id = none ∧
    (NewTcpRun "srv" (tcpCreates "srv" TcpGlobals.init
        [⟨"peer:4000", 0, 0, 0, 0, 0⟩, ⟨"peer:4000", 5, 7, 0, 0, 0⟩])
        ⟨"peer:4000", 0, 0, 0, 0, 0⟩).1.Id = "srv-2" :=
  ⟨(create_keeps_existing_entries.1 _ 1000 ⟨"peer", "http://other/ping", 500⟩ "peer.series"
      true (by decide!)).2.2,
    by
      rw [(create_keeps_existing_entries.1 _ 1000 ⟨"peer", "http://other/ping", 500⟩
        "peer.series" true (by decide!)).1]
      decide!,
    (create_keeps_existing_entries.2.1 "srv"
      [⟨"peer:4000", 0, 0, 0, 0, 0⟩, ⟨"peer:4000", 5, 7, 0, 0, 0⟩]
      ⟨"peer:4000", 0, 0, 0, 0, 0⟩ (by decide)).1,
    by decide!⟩

/-- C12, as stated, fails for an end time that does not fit `int64`: with `EndTime = 2^64 - 1`
(and no stop request, no byte cap) the clock `1.7 * 10^18` ns is not past `end_time`, yet
`int64(EndTime)` is `-1`, the end-time test fires, and the loop is left without a write. -/
theorem loop_top_end_time_wraps :
    (⟨"srv-0", 0, ⟨"peer:4000", 0, 1024, 0, 0, 18446744073709551615⟩, false, 0, 0⟩ :
      TcpRun).StopReq = false ∧
    ¬ ((1700000000000000000 : Int) > 18446744073709551615 * 1000000000) ∧
    (TcpRun.iterate ⟨"srv-0", 0, ⟨"peer:4000", 0, 1024, 0, 0, 18446744073709551615⟩, false, 0, 0⟩
      none (fullWrite 1700000000000000000)).1 = [] ∧
    TcpRun.loop ⟨"srv-0", 0, ⟨"peer:4000", 0, 1024, 0, 0, 18446744073709551615⟩, false, 0, 0⟩
        none [RunEvent.iterate (fullWrite 1700000000000000000)]
      = ([], ⟨"srv-0", 0, ⟨"peer:4000", 0, 1024, 0, 0, 18446744073709551615⟩, false, 0, 0⟩,
          some LoopExit.timeOver) := by
  decide!

/-- C12, amended: for every run whose end time fits the seconds of a `time.Time`
(`EndTime + 62135596800 < 2^63`), at the top of an iteration of the TCP loop (and of the UDP
loop likewise): if `StopReq` is set, or `MaxBytes > 0` and `BytesSent ≥ MaxBytes`, or
`EndTime > 0` and the clock is past `EndTime`, the loop is left without a write and the run is
unchanged; otherwise exactly one write is issued in the iteration, at the clock stored in
`lastSendTime` and of length `min(WriteSize, MaxBytes - BytesSent)` (`WriteSize` without a cap).
`Stop` sets `StopReq` and changes no other field, and the next iteration leaves the loop at its
top. -/
theorem loop_top_tests :
    (∀ (run : TcpRun) (last : Option Int) (e : IterEnv) (es : List RunEvent),
      (run.Req.EndTime : Int) + 62135596800 < 2 ^ 63 →
      ((run.StopReq = true ∨ (run.Req.MaxBytes > 0 ∧ run.BytesSent ≥ run.Req.MaxBytes) ∨
          (run.Req.EndTime > 0 ∧ e.now > (run.Req.EndTime : Int) * 1000000000)) →
        ∃ reason, run.loop last (RunEvent.iterate e :: es) = ([], run, some reason) ∧
          reason ≠ LoopExit.sendError) ∧
      (¬ (run.StopReq = true ∨ (run.Req.MaxBytes > 0 ∧ run.BytesSent ≥ run.Req.MaxBytes) ∨
          (run.Req.EndTime > 0 ∧ e.now > (run.Req.EndTime : Int) * 1000000000)) →
        ∃ sent, (run.iterate last e).1 = [sent] ∧ sent.sendTime = e.sendTime ∧
          sent.len = if run.Req.MaxBytes > 0 then
              min run.Req.WriteSize (wrapUint64 ((run.Req.MaxBytes : Int) - run.BytesSent))
            else run.Req.WriteSize) ∧
      run.Stop = ⟨run.Id, run.BytesSent, run.Req, true, run.TrafficStartTime,
        run.TrafficEndTime⟩ ∧
      run.Stop.loop last (RunEvent.iterate e :: es)
        = ([], run.Stop, some LoopExit.stopRequested)) ∧
    (∀ (run : UdpRun) (last : Option Int) (e : IterEnv) (es : List RunEvent),
      (run.Req.EndTime : Int) + 62135596800 < 2 ^ 63 →
      ((run.StopReq = true ∨ (run.Req.MaxBytes > 0 ∧ run.BytesSent ≥ run.Req.MaxBytes) ∨
          (run.Req.EndTime > 0 ∧ e.now > (run.Req.EndTime : Int) * 1000000000)) →
        ∃ reason, run.loop last (RunEvent.iterate e :: es) = ([], run, some reason) ∧
          reason ≠ LoopExit.sendError) ∧
      (¬ (run.StopReq = true ∨ (run.Req.MaxBytes > 0 ∧ run.BytesSent ≥ run.Req.MaxBytes) ∨
          (run.Req.EndTime > 0 ∧ e.now > (run.Req.EndTime : Int) * 1000000000)) →
        ∃ sent, (run.iterate last e).1 = [sent] ∧ sent.sendTime = e.sendTime ∧
          sent.len = if run.Req.MaxBytes > 0 then
              min run.Req.WriteSize (wrapUint64 ((run.Req.MaxBytes : Int) - run.BytesSent))
            else run.Req.WriteSize) ∧
      run.Stop = ⟨run.Id, run.BytesSent, run.Req, true, run.TrafficStartTime,
        run.TrafficEndTime⟩ ∧
      run.Stop.loop last (RunEvent.iterate e :: es)
        = ([], run.Stop, some LoopExit.stopRequested)) := by
  constructor
  · intro run last e es hend
    have hiff := afterEndTime_iff e.now run.Req.EndTime (by unfold unixToInternal; exact hend)
    refine ⟨fun h => ?_, fun h => ?_, rfl, ?_⟩
    · rw [← hiff] at h
      obtain ⟨reason, hit, hne⟩ := tcp_iterate_exit run last e h
      exact ⟨reason, tcp_loop_exit run last e es reason hit, hne⟩
    · rw [← hiff] at h
      exact ⟨_, (tcp_iterate_write run last e h).1, rfl, rfl⟩
    · apply tcp_loop_exit
      unfold TcpRun.iterate
      rw [if_pos (show run.Stop.StopReq = true from rfl)]
  · intro run last e es hend
    have hiff := afterEndTime_iff e.now run.Req.EndTime (by unfold unixToInternal; exact hend)
    refine ⟨fun h => ?_, fun h => ?_, rfl, ?_⟩
    · rw [← hiff] at h
      obtain ⟨reason, hit, hne⟩ := udp_iterate_exit run last e h
      exact ⟨reason, udp_loop_exit run last e es reason hit, hne⟩
    · rw [← hiff] at h
      exact ⟨_, (udp_iterate_write run last e h).1, rfl, rfl⟩
    · apply udp_loop_exit
      unfold UdpRun.iterate
      rw [if_pos (show run.Stop.StopReq = true from rfl)]

/-- Witness of C12 (amended): a run with an end time of 100 s, at a clock of 99.5 s (one write
of 1024 bytes) and at a clock of 100.5 s (the loop is left). -/
theorem loop_top_tests_witness :
    ((100 : Nat) : Int) + 62135596800 < 2 ^ 63 ∧
    (∃ sent, (TcpRun.iterate ⟨"srv-0", 0, ⟨"peer:4000", 0, 1024, 0, 0, 100⟩, false, 0, 0⟩ none
        (fullWrite 99500000000)).1 = [sent] ∧ sent.sendTime = 99500000000 ∧
        sent.len = 1024) ∧
    (∃ reason, TcpRun.loop ⟨"srv-0", 0, ⟨"peer:4000", 0, 1024, 0, 0, 100⟩, false, 0, 0⟩ none
        [RunEvent.iterate (fullWrite 100500000000)]
      = ([], ⟨"srv-0", 0, ⟨"peer:4000", 0, 1024, 0, 0, 100⟩, false, 0, 0⟩, some reason) ∧
      reason ≠ LoopExit.sendError) :=
  ⟨by decide,
    (loop_top_tests.1 ⟨"srv-0", 0, ⟨"peer:4000", 0, 1024, 0, 0, 100⟩, false, 0, 0⟩ none
      (fullWrite 99500000000) [] (by decide)).2.1 (by decide),
    (loop_top_tests.1 ⟨"srv-0", 0, ⟨"peer:4000", 0, 1024, 0, 0, 100⟩, false, 0, 0⟩ none
      (fullWrite 100500000000) [] (by decide)).1 (by decide)⟩

/-- C13, as stated, fails: the end-time test comes before the pacing sleep.  A run with an end
time of 100 s and a write interval of 1000 ms passes the test of its second iteration at 99.6 s,
asks `time.Sleep` for 899 ms (its first write was at 99.5 s), and begins its second write at
100.499 s, past the end time, on a clock that never goes back. -/
theorem write_begins_past_end_time :
    clockNonDecreasing 99400000000
      [RunEvent.iterate (fullWriteAt 99500000000 99500000000),
        RunEvent.iterate (fullWriteAt 99600000000 100499000000),
        RunEvent.iterate (fullWriteAt 100500000000 100500000000)] 100600000000 ∧
    (TcpRun.Process ⟨"srv-0", 0, ⟨"peer:4000", 0, 1024, 1000, 0, 100⟩, false, 0, 0⟩
      ⟨true, 99400000000,
        [RunEvent.iterate (fullWriteAt 99500000000 99500000000),
          RunEvent.iterate (fullWriteAt 99600000000 100499000000),
          RunEvent.iterate (fullWriteAt 100500000000 100500000000)], 100600000000⟩).sends
      = [⟨99500000000, -9223372035855775807, 99500000000, 1024⟩,
          ⟨99600000000, 899000000, 100499000000, 1024⟩] ∧
    (99600000000 : Int) + 899000000 = 100499000000 ∧
    (100499000000 : Int) > ((100 : Nat) : Int) * 1000000000 := by
  refine ⟨?_, by decide!, by decide, by decide⟩
  simp only [clockNonDecreasing, fullWriteAt]
  decide

/-- C13, amended: for every TCP run (and UDP run likewise) with `EndTime > 0` that fits the
seconds of a `time.Time`, on a clock that never goes back and whose last reading fits `UnixNano`:
every write of the transmit loop is issued in an iteration whose end-time test read a clock not
past `EndTime`, and begins no earlier than that test (it can begin past `EndTime`, after the
pacing sleep); and when the loop is left because of the end time,
`TrafficEndTime / 10^9 ≥ EndTime`. -/
theorem Process_deadline :
    (∀ (run : TcpRun) (env : ProcessEnv), run.Req.EndTime > 0 →
      (run.Req.EndTime : Int) + 62135596800 < 2 ^ 63 →
      clockNonDecreasing env.startClock env.events env.endClock → env.endClock < 2 ^ 63 →
      (∀ sent ∈ (run.Process env).sends,
        sent.checkTime ≤ (run.Req.EndTime : Int) * 1000000000 ∧
        sent.checkTime ≤ sent.sendTime) ∧
      ((run.Process env).exit = some LoopExit.timeOver →
        (run.Process env).run.TrafficEndTime / 1000000000 ≥ (run.Req.EndTime : Int))) ∧
    (∀ (run : UdpRun) (env : ProcessEnv), run.Req.EndTime > 0 →
      (run.Req.EndTime : Int) + 62135596800 < 2 ^ 63 →
      clockNonDecreasing env.startClock env.events env.endClock → env.endClock < 2 ^ 63 →
      (∀ sent ∈ (run.Process env).sends,
        sent.checkTime ≤ (run.Req.EndTime : Int) * 1000000000 ∧
        sent.checkTime ≤ sent.sendTime) ∧
      ((run.Process env).exit = some LoopExit.timeOver →
        (run.Process env).run.TrafficEndTime / 1000000000 ≥ (run.Req.EndTime : Int))) := by
  constructor
  · intro run env hpos hend hclock hfit
    have h := tcp_process_deadline run env (by unfold unixToInternal; exact hend) hclock hfit
    exact ⟨fun sent hs => h.1 sent hs hpos, h.2⟩
  · intro run env hpos hend hclock hfit
    have h := udp_process_deadline run env (by unfold unixToInternal; exact hend) hclock hfit
    exact ⟨fun sent hs => h.1 sent hs hpos, h.2⟩

/-- Witness of C13 (amended): the run of the counterexample; its two writes follow tests at
99.5 s and 99.6 s, the loop is left by the test at 100.5 s and `TrafficEndTime` is 100.6 s. -/
theorem Process_deadline_witness :
    (⟨"srv-0", 0, ⟨"peer:4000", 0, 1024, 1000, 0, 100⟩, false, 0, 0⟩ : TcpRun).Req.EndTime > 0 ∧
    ((100 : Nat) : Int) + 62135596800 < 2 ^ 63 ∧
    (TcpRun.Process ⟨"srv-0", 0, ⟨"peer:4000", 0, 1024, 1000, 0, 100⟩, false, 0, 0⟩
      ⟨true, 99400000000,
        [RunEvent.iterate (fullWriteAt 99500000000 99500000000),
          RunEvent.iterate (fullWriteAt 99600000000 100499000000),
          RunEvent.iterate (fullWriteAt 100500000000 100500000000)], 100600000000⟩).exit
      = some LoopExit.timeOver ∧
    (TcpRun.Process ⟨"srv-0", 0, ⟨"peer:4000", 0, 1024, 1000, 0, 100⟩, false, 0, 0⟩
      ⟨true, 99400000000,
        [RunEvent.iterate (fullWriteAt 99500000000 99500000000),
          RunEvent.iterate (fullWriteAt 99600000000 100499000000),
          RunEvent.iterate (fullWriteAt 100500000000 100500000000)],
        100600000000⟩).run.TrafficEndTime / 1000000000 ≥ ((100 : Nat) : Int) :=
  have hclock : clockNonDecreasing 99400000000
      [RunEvent.iterate (fullWriteAt 99500000000 99500000000),
        RunEvent.iterate (fullWriteAt 99600000000 100499000000),
        RunEvent.iterate (fullWriteAt 100500000000 100500000000)] 100600000000 := by
    simp only [clockNonDecreasing, fullWriteAt]
    decide
  have hexit : (TcpRun.Process ⟨"srv-0", 0, ⟨"peer:4000", 0, 1024, 1000, 0, 100⟩, false, 0, 0⟩
      ⟨true, 99400000000,
        [RunEvent.iterate (fullWriteAt 99500000000 99500000000),
          RunEvent.iterate (fullWriteAt 99600000000 100499000000),
          RunEvent.iterate (fullWriteAt 100500000000 100500000000)], 100600000000⟩).exit
      = some LoopExit.timeOver := by
    decide!
  ⟨by decide, by decide, hexit,
    (Process_deadline.1 ⟨"srv-0", 0, ⟨"peer:4000", 0, 1024, 1000, 0, 100⟩, false, 0, 0⟩
      ⟨true, 99400000000,
        [RunEvent.iterate (fullWriteAt 99500000000 99500000000),
          RunEvent.iterate (fullWriteAt 99600000000 100499000000),
          RunEvent.iterate (fullWriteAt 100500000000 100500000000)], 100600000000⟩
      (by decide) (by decide) hclock (by decide)).2 hexit⟩

end Perf
